import Mathlib

/-
Shallow embedding of the core algorithms of `movie_manager.py`: title
extraction, difflib-based similarity scoring, the media-folder candidate
scanner, torrent/candidate reconciliation with its suppression history,
category classification, the verification-monitor tick and taxonomy
saving.  Python floats are modelled as exact rationals, Python string
operations are modelled on ASCII plus the CJK block the program
manipulates, and external collaborators (filesystem walk results,
qBittorrent lookups, YAML parsing) are passed in as explicit inputs.
-/

/-- Python ASCII whitespace: the characters matched by `\s` and stripped by
`str.strip` on the inputs this program handles. -/
def isPySpace (c : Char) : Bool :=
  c = ' ' || c = '\t' || c = '\n' || c = '\r' || c = '\x0b' || c = '\x0c'

/-- Python `str.strip()`: drop whitespace from both ends. -/
def pyStrip (l : List Char) : List Char :=
  ((l.dropWhile isPySpace).reverse.dropWhile isPySpace).reverse

/-- Python `str.lower()` (ASCII case folding; CJK has no case). -/
def pyLower (s : String) : String := ⟨s.data.map Char.toLower⟩

/-- Python `str.upper()` (ASCII case folding). -/
def pyUpper (s : String) : String := ⟨s.data.map Char.toUpper⟩

/-- Python `str.strip()` on a string. -/
def pyStripStr (s : String) : String := ⟨pyStrip s.data⟩

/-- Python `str.split(sep)` for a one-character separator: keeps empty
pieces, and splitting the empty string yields one empty piece. -/
def pySplitCharAux (sep : Char) : List Char → List Char → List (List Char)
  | [], acc => [acc.reverse]
  | c :: cs, acc =>
    if c = sep then acc.reverse :: pySplitCharAux sep cs []
    else pySplitCharAux sep cs (c :: acc)

def pySplitChar (sep : Char) (s : String) : List String :=
  (pySplitCharAux sep s.data []).map (fun l => ⟨l⟩)

theorem stringMk_eq_empty_iff (l : List Char) : (⟨l⟩ : String) = "" ↔ l = [] := by
  constructor
  · intro h
    exact congrArg String.data h
  · intro h
    rw [h]

theorem dropWhile_len_le {α : Type} (p : α → Bool) :
    ∀ l : List α, (l.dropWhile p).length ≤ l.length := by
  intro l
  induction l with
  | nil => simp [List.dropWhile]
  | cons c cs ih =>
    by_cases h : p c
    · simp [List.dropWhile, h]
      omega
    · simp [List.dropWhile, h]

/-- Fuel-indexed body of `collapseWs`; every step shortens the list, so
`fuel = l.length` always suffices and the zero-fuel branch is unreachable. -/
def collapseWsF : Nat → List Char → List Char
  | _, [] => []
  | 0, l => l
  | fuel + 1, c :: cs =>
    if isPySpace c then ' ' :: collapseWsF fuel (cs.dropWhile isPySpace)
    else c :: collapseWsF fuel cs

/-- `re.sub(r'\s+', ' ', name)`: collapse each whitespace run to one space. -/
def collapseWs (l : List Char) : List Char := collapseWsF l.length l

/-- Index of the last occurrence of a character in a list. -/
def lastIdxOf (c : Char) : List Char → Option Nat
  | [] => none
  | x :: xs =>
    match lastIdxOf c xs with
    | some i => some (i + 1)
    | none => if x = c then some 0 else none

/-- `os.path.splitext` (posix): split at the last dot of the basename unless
every basename character before that dot is itself a dot. -/
def splitext (p : List Char) : List Char × List Char :=
  let fi : Nat := match lastIdxOf '/' p with | some i => i + 1 | none => 0
  match lastIdxOf '.' p with
  | some di =>
    if fi ≤ di && ((p.drop fi).take (di - fi)).any (fun c => c ≠ '.') then
      (p.take di, p.drop di)
    else (p, [])
  | none => (p, [])

/-- `os.path.basename` (posix). -/
def basenameP (p : List Char) : List Char :=
  match lastIdxOf '/' p with
  | some i => p.drop (i + 1)
  | none => p

/-- `os.path.dirname` (posix): keep everything before the last slash,
stripping trailing slashes unless the head is all slashes. -/
def dirnameP (p : List Char) : List Char :=
  match lastIdxOf '/' p with
  | none => []
  | some i =>
    let head := p.take (i + 1)
    if head.all (fun c => c = '/') then head
    else (head.reverse.dropWhile (fun c => c = '/')).reverse

/-- Word characters for Python `\b` boundaries: `\w` restricted to ASCII
alphanumerics, underscore and the CJK block this program manipulates. -/
def isWordChar (c : Char) : Bool :=
  c.isAlphanum || c = '_' || (0x4e00 ≤ c.toNat && c.toNat ≤ 0x9fff)

/-- Case-insensitive match of a fixed token at the head of the input
(ASCII case folding, which covers every token in the pattern list). -/
def matchTokenCI : List Char → List Char → Bool
  | [], _ => true
  | _ :: _, [] => false
  | p :: ps, c :: cs => p.toLower = c.toLower && matchTokenCI ps cs

/-- First alternative of a `\b(...|...)\b` pattern matching at this position.
Every alternative starts and ends with a word character, so each `\b` holds
exactly when the neighbouring character is absent or not a word character.
Returns the matched length. -/
def findTokenAlt (alts : List (List Char)) (prev : Option Char) (s : List Char) :
    Option Nat :=
  (alts.find? fun alt =>
    matchTokenCI alt s
      && (match prev with | none => true | some p => !isWordChar p)
      && (match (s.drop alt.length).head? with
          | none => true
          | some n => !isWordChar n)).map List.length

/-- One `re.sub(pattern, '', name)` pass for a word-bounded alternation:
scan left to right, drop each match, resume after its end (`prev` is the
character preceding the current position in the original string).  The
fuel shrinks once per step while the list shrinks by at least one, so
starting fuel `l.length` makes the zero-fuel branch unreachable. -/
def subTokenGo (alts : List (List Char)) : Nat → Option Char → List Char → List Char
  | _, _, [] => []
  | 0, _, l => l
  | fuel + 1, prev, c :: cs =>
    match findTokenAlt alts prev (c :: cs) with
    | some n => subTokenGo alts fuel (some ((c :: cs).getD (n - 1) c)) (cs.drop (n - 1))
    | none => c :: subTokenGo alts fuel (some c) cs

def subTokenAlts (alts : List (List Char)) (s : List Char) : List Char :=
  subTokenGo alts s.length none s

/-- Position of the first `}` reachable without crossing a newline
(`.` in `\{(.*?)\}` does not match a newline). -/
def findCloseBrace : List Char → Option Nat
  | [] => none
  | '}' :: _ => some 0
  | '\n' :: _ => none
  | _ :: cs => (findCloseBrace cs).map (· + 1)

/-- Fuel-indexed body of `subBraces` (fuel `l.length` always suffices). -/
def subBracesF : Nat → List Char → List Char
  | _, [] => []
  | 0, l => l
  | fuel + 1, c :: cs =>
    if c = '{' then
      match findCloseBrace cs with
      | some i => subBracesF fuel (cs.drop (i + 1))
      | none => '{' :: subBracesF fuel cs
    else c :: subBracesF fuel cs

/-- `re.sub(r'\{(.*?)\}', '', name)`: drop each brace pair (shortest match). -/
def subBraces (l : List Char) : List Char := subBracesF l.length l

/-- The character class `[A-Z0-9_]` under `re.IGNORECASE`. -/
def isTagChar (c : Char) : Bool := c.isAlpha || c.isDigit || c = '_'

/-- `re.sub(r'-[A-Z0-9_]+$', '', name)`: since `-` is not in the class, the
only possible match hangs off the last dash, with a nonempty all-class
suffix running to the end. -/
def subDashTag (l : List Char) : List Char :=
  match lastIdxOf '-' l with
  | none => l
  | some i =>
    let suff := l.drop (i + 1)
    if !suff.isEmpty && suff.all isTagChar then l.take i else l

/-- Start index of the leftmost match of `__[A-Z0-9_]+$`: a double
underscore whose entire (nonempty) remainder is in the class. -/
def underTagIdx : List Char → Option Nat
  | [] => none
  | [_] => none
  | a :: b :: rest =>
    if a = '_' && b = '_' && !rest.isEmpty && rest.all isTagChar then some 0
    else (underTagIdx (b :: rest)).map (· + 1)

/-- `re.sub(r'__[A-Z0-9_]+$', '', name)`. -/
def subUnderTag (l : List Char) : List Char :=
  match underTagIdx l with
  | some i => l.take i
  | none => l

def tokenPatterns : List (List (List Char)) :=
  [ ["1080p".data, "720p".data, "480p".data, "4K".data, "2160p".data, "UHD".data],
    ["BluRay".data, "BDRip".data, "DVDRip".data, "WEBRip".data, "HDTV".data,
     "WEB-DL".data, "HDRip".data],
    ["x264".data, "x265".data, "H264".data, "H265".data, "HEVC".data, "AVC".data],
    ["AC3".data, "DTS".data, "AAC".data, "FLAC".data, "MP3".data, "Atmos".data],
    ["REMUX".data, "REPACK".data, "PROPER".data, "INTERNAL".data],
    ["HDR".data, "SDR".data, "Dolby".data, "Vision".data],
    ["COMPLETE".data, "BLURAY".data, "GLiMMER".data, "MKiEDb".data] ]

/-- The pre-clean pass of `extract_title_from_filename`: apply the ten
substitution patterns in order, then collapse whitespace and strip. -/
def preClean (name : List Char) : List Char :=
  let n1 := tokenPatterns.foldl (fun s alts => subTokenAlts alts s) name
  let n2 := subUnderTag (subDashTag (subBraces n1))
  pyStrip (collapseWs n2)

/-- Characters of the CJK unified-ideograph block `[一-鿿]`. -/
def isCJK (c : Char) : Bool := 0x4e00 ≤ c.toNat && c.toNat ≤ 0x9fff

def containsCJK (l : List Char) : Bool := l.any isCJK

/-- The character class inside the season marker `第([一二三四五六七八九十\d]+)季`
(`\d` modelled as ASCII digits). -/
def seasonNumChar (c : Char) : Bool :=
  c = '一' || c = '二' || c = '三' || c = '四' || c = '五' || c = '六' ||
  c = '七' || c = '八' || c = '九' || c = '十' || c.isDigit

/-- Whether `re.search` finds the season marker `第<N>季` anywhere: the class
excludes `季`, so a match at `第` happens exactly when the maximal class run
after it is nonempty and followed by `季`. -/
def hasSeasonMarker : List Char → Bool
  | [] => false
  | c :: cs =>
    (c = '第' &&
      (let run := cs.takeWhile seasonNumChar
       !run.isEmpty && (cs.drop run.length).head? = some '季'))
    || hasSeasonMarker cs

/-- `s.split(sep)[0]`: the text before the first occurrence of a character. -/
def beforeFirst (sep : Char) (l : List Char) : List Char :=
  l.takeWhile (fun c => c ≠ sep)

def dotToSpace (c : Char) : Char := if c = '.' then ' ' else c

/-- Position of the first occurrence of `target` reachable without crossing
a newline (`.` does not match `\n`). -/
def findCloseAt (target : Char) : List Char → Option Nat
  | [] => none
  | c :: cs =>
    if c = target then some 0
    else if c = '\n' then none
    else (findCloseAt target cs).map (· + 1)

/-- Whether `re.search(r'\[.*\]', name)` matches: an opening bracket with a
closing bracket after it and no newline in between. -/
def hasBracketPair : List Char → Bool
  | [] => false
  | c :: cs => (c = '[' && (findCloseAt ']' cs).isSome) || hasBracketPair cs

/-- Position of the first match of a pattern whose start can be recognised
from the remaining suffix. -/
def findPosBy (p : List Char → Bool) : List Char → Option Nat
  | [] => none
  | c :: cs => if p (c :: cs) then some 0 else (findPosBy p cs).map (· + 1)

/-- A match of `\.S\d+` (case-insensitive) starts here. -/
def seasonDotAt : List Char → Bool
  | '.' :: s :: d :: _ => (s = 'S' || s = 's') && d.isDigit
  | _ => false

/-- A match of `\sS\d+` (case-insensitive) starts here. -/
def seasonSpaceAt : List Char → Bool
  | w :: s :: d :: _ => isPySpace w && (s = 'S' || s = 's') && d.isDigit
  | _ => false

/-- A match of `\.(\d{4})` starts here. -/
def yearDotAt : List Char → Bool
  | '.' :: a :: b :: c :: d :: _ => a.isDigit && b.isDigit && c.isDigit && d.isDigit
  | _ => false

/-- A match of `\s(\d{4})` starts here. -/
def yearSpaceAt : List Char → Bool
  | w :: a :: b :: c :: d :: _ =>
    isPySpace w && a.isDigit && b.isDigit && c.isDigit && d.isDigit
  | _ => false

/-- `season_match_dot or season_match_space`: the dot variant wins whenever
it matches anywhere, otherwise the whitespace variant is used. -/
def seasonPos (name : List Char) : Option Nat :=
  (findPosBy seasonDotAt name).orElse (fun _ => findPosBy seasonSpaceAt name)

def yearPos (name : List Char) : Option Nat :=
  (findPosBy yearDotAt name).orElse (fun _ => findPosBy yearSpaceAt name)

/-- The shared tail of rules 3/3.1/4: dots (when present) become spaces,
then strip. -/
def ruleThreeTransform (before : List Char) : List Char :=
  if before.contains '.' then pyStrip (before.map dotToSpace) else pyStrip before

/-- `re.sub(r'\b\d{4}\b', '', name)`: drop standalone four-digit tokens
(word boundary on both sides); scanning resumes after each match.  Fuel
`l.length` always suffices. -/
def subYearGo : Nat → Option Char → List Char → List Char
  | _, _, [] => []
  | 0, _, l => l
  | fuel + 1, prev, c :: cs =>
    if (match prev with | none => true | some p => !isWordChar p)
        && (match c :: cs with
            | a :: b :: c2 :: d :: rest =>
              a.isDigit && b.isDigit && c2.isDigit && d.isDigit
                && (match rest.head? with | none => true | some n => !isWordChar n)
            | _ => false) then
      subYearGo fuel (some ((c :: cs).getD 3 c)) (cs.drop 3)
    else c :: subYearGo fuel (some c) cs

def subYearTokens (l : List Char) : List Char := subYearGo l.length none l

def isSepChar (c : Char) : Bool := c = '.' || c = '_' || c = '-'

/-- Fuel-indexed body of `subSeps` (fuel `l.length` always suffices). -/
def subSepsF : Nat → List Char → List Char
  | _, [] => []
  | 0, l => l
  | fuel + 1, c :: cs =>
    if isSepChar c then ' ' :: subSepsF fuel (cs.dropWhile isSepChar)
    else c :: subSepsF fuel cs

/-- `re.sub(r'[._-]+', ' ', name)`: each separator run becomes one space. -/
def subSeps (l : List Char) : List Char := subSepsF l.length l

/-- Which branch of the `extract_title_from_filename` cascade produced the
result (the branch names follow the rule numbers logged by the code). -/
inductive ExtractRule
  | rule0 | rule1_2 | rule1_1 | rule1 | rule2_1 | rule2_2 | rule2
  | rule3 | rule3_1 | rule4 | rule5
deriving DecidableEq, Repr

/-- Rule 0 (underscore split): fires when the cleaned name has an
underscore, no bracket pair, and at least two characters before the first
underscore after stripping. -/
def tryRule0 (name : List Char) : Option (ExtractRule × List Char) :=
  if name.contains '_' && !hasBracketPair name then
    let before := pyStrip (name.takeWhile (fun c => c ≠ '_'))
    if 2 ≤ before.length then some (.rule0, pyStrip (before.map dotToSpace))
    else none
  else none

/-- Rules 1.2 and 1.1 fall through to returning the full bracket content. -/
def rule1Inner (bc : List Char) : ExtractRule × List Char :=
  if bc.contains ' ' || bc.contains '.' then
    let fp := pyStrip (bc.takeWhile (fun c => c ≠ ' ' && c ≠ '.'))
    if !fp.isEmpty && containsCJK fp then (.rule1_1, fp) else (.rule1, bc)
  else (.rule1, bc)

/-- Rule 1 (leading bracket): `^\[([^\]]+)\]` with the CJK season and
space/dot sub-rules. -/
def tryRule1 (name : List Char) : Option (ExtractRule × List Char) :=
  match name with
  | '[' :: cs =>
    let inner := cs.takeWhile (fun c => c ≠ ']')
    if !inner.isEmpty && (cs.drop inner.length).head? = some ']' then
      let bc := pyStrip inner
      if containsCJK bc then
        if hasSeasonMarker bc then
          let bs := pyStrip (beforeFirst '第' bc)
          if !bs.isEmpty then some (.rule1_2, bs) else some (rule1Inner bc)
        else some (rule1Inner bc)
      else some (.rule1, bc)
    else none
  | _ => none

/-- Rules 2.2 and 2 after the `之` check fell through. -/
def rule2Inner (ct : List Char) : ExtractRule × List Char :=
  if hasSeasonMarker ct then
    let bs := pyStrip (beforeFirst '第' ct)
    if !bs.isEmpty then (.rule2_2, bs) else (.rule2, ct)
  else (.rule2, ct)

/-- Rule 2 (CJK before the first dot, which must not be at index 0). -/
def tryRule2 (name : List Char) : Option (ExtractRule × List Char) :=
  if name.head? ≠ some '.' && name.contains '.' then
    let before := name.takeWhile (fun c => c ≠ '.')
    if containsCJK before then
      let ct := before.filter isCJK
      if ct.contains '之' then
        let bz := pyStrip (beforeFirst '之' ct)
        if !bz.isEmpty then some (.rule2_1, bz) else some (rule2Inner ct)
      else some (rule2Inner ct)
    else none
  else none

/-- Rules 3, 3.1 and 4: season and/or year token positions. -/
def tryRule34 (name : List Char) : Option (ExtractRule × List Char) :=
  match seasonPos name, yearPos name with
  | some sp, some yp =>
    if yp < sp then some (.rule3, ruleThreeTransform (name.take yp))
    else some (.rule3, ruleThreeTransform (name.take sp))
  | some sp, none => some (.rule3_1, ruleThreeTransform (name.take sp))
  | none, some yp => some (.rule4, ruleThreeTransform (name.take yp))
  | none, none => none

/-- Rule 5 (fallback): drop standalone years, turn separator runs into
spaces, collapse whitespace; if fewer than 2 characters remain, use the
original extension-stripped name. -/
def rule5Result (name original : List Char) : ExtractRule × List Char :=
  let n1 := pyStrip (collapseWs (subSeps (subYearTokens name)))
  if n1.length < 2 then (.rule5, original) else (.rule5, n1)

/-- `extract_title_from_filename`, with the firing rule recorded. -/
def extract_title_tagged (filename : String) : ExtractRule × List Char :=
  let original_name := (splitext filename.data).1
  let name := preClean original_name
  match tryRule0 name with
  | some r => r
  | none =>
    match tryRule1 name with
    | some r => r
    | none =>
      match tryRule2 name with
      | some r => r
      | none =>
        match tryRule34 name with
        | some r => r
        | none => rule5Result name original_name

def extract_title_from_filename (filename : String) : String :=
  ⟨(extract_title_tagged filename).2⟩


/-- A rational `n / d` built directly in lowest terms, so that scores
compute by kernel reduction (the library division on `ℚ` does not). -/
def mkQ (n d : Nat) : ℚ :=
  if hd : d = 0 then 0
  else
    let g := Nat.gcd n d
    have hg : 0 < g := Nat.gcd_pos_of_pos_right n (Nat.pos_of_ne_zero hd)
    ⟨(n / g : Nat), d / g,
      by
        have h2 : 0 < d / g :=
          Nat.div_pos (Nat.le_of_dvd (Nat.pos_of_ne_zero hd) (Nat.gcd_dvd_right n d)) hg
        omega,
      by simpa using Nat.coprime_div_gcd_div_gcd (m := n) (n := d) hg⟩

theorem mkQ_eq (n d : Nat) : mkQ n d = (n : ℚ) / (d : ℚ) := by
  unfold mkQ
  split
  · rename_i hd
    subst hd
    simp
  · rename_i hd
    have hgpos : 0 < Nat.gcd n d := Nat.gcd_pos_of_pos_right n (Nat.pos_of_ne_zero hd)
    have ha : (n : ℚ) = (Nat.gcd n d : ℚ) * ((n / Nat.gcd n d : Nat) : ℚ) := by
      exact_mod_cast congrArg (Nat.cast : Nat → ℚ)
        (Nat.mul_div_cancel' (Nat.gcd_dvd_left n d)).symm
    have hb : (d : ℚ) = (Nat.gcd n d : ℚ) * ((d / Nat.gcd n d : Nat) : ℚ) := by
      exact_mod_cast congrArg (Nat.cast : Nat → ℚ)
        (Nat.mul_div_cancel' (Nat.gcd_dvd_right n d)).symm
    show (⟨((n / Nat.gcd n d : Nat) : Int), d / Nat.gcd n d, _, _⟩ : ℚ) = (n : ℚ) / d
    rw [Rat.mk'_eq_divInt, Rat.divInt_eq_div, ha, hb,
      mul_div_mul_left _ _ (by exact_mod_cast hgpos.ne')]
    push_cast
    rfl

/-- A matching block found by difflib `find_longest_match`:
`a[i:i+size] == b[j:j+size]`. -/
structure FLMBlock where
  i : Nat
  j : Nat
  size : Nat
deriving DecidableEq, Repr

/-- Element access used throughout the similarity scorer; every use is
guarded by a range check. -/
def getC (l : List Char) (i : Nat) : Char := l.getD i '\x00'

/-- Ascending positions of a character in `b` (difflib `b2j` before junk
filtering). -/
def posList (b : List Char) (c : Char) : List Nat :=
  (List.range b.length).filter (fun j => getC b j = c)

/-- difflib `b2j` with the autojunk heuristic: when `b` has at least 200
elements, characters occurring more than `len(b)//100 + 1` times are
dropped from the index (they stay reachable only through the extension
loops). -/
def b2j (b : List Char) (c : Char) : List Nat :=
  let ps := posList b c
  if 200 ≤ b.length && b.length / 100 + 1 < ps.length then [] else ps

/-- One inner step of the `find_longest_match` scan: `k = j2len[j-1] + 1`
read from the previous row, best block updated on strict improvement. -/
def flmInner (prev : Nat → Nat) (i : Nat) (st : (Nat → Nat) × FLMBlock) (j : Nat) :
    (Nat → Nat) × FLMBlock :=
  let k := (if j = 0 then 0 else prev (j - 1)) + 1
  let best := if st.2.size < k then ⟨i + 1 - k, j + 1 - k, k⟩ else st.2
  (fun x => if x = j then k else st.1 x, best)

/-- One row of the scan: iterate the in-range positions of `a[i]` in `b`,
building the new `j2len` from an empty map. -/
def flmRow (a b : List Char) (blo bhi : Nat) (st : (Nat → Nat) × FLMBlock) (i : Nat) :
    (Nat → Nat) × FLMBlock :=
  let js := (b2j b (getC a i)).filter (fun j => blo ≤ j && j < bhi)
  js.foldl (flmInner st.1 i) ((fun _ => 0), st.2)

/-- The dynamic-programming scan of `find_longest_match`. -/
def flmScan (a b : List Char) (alo ahi blo bhi : Nat) : FLMBlock :=
  ((List.range' alo (ahi - alo)).foldl (flmRow a b blo bhi)
    ((fun _ => 0), ⟨alo, blo, 0⟩)).2

/-- Backward extension loop of `find_longest_match` (the junk variant never
fires: the program always builds `SequenceMatcher(None, ...)`, so `bjunk`
is empty).  Fuel `st.i` bounds the iteration count. -/
def extendLowF : Nat → List Char → List Char → Nat → Nat → FLMBlock → FLMBlock
  | 0, _, _, _, _, st => st
  | fuel + 1, a, b, alo, blo, st =>
    if alo < st.i && blo < st.j && (getC a (st.i - 1) = getC b (st.j - 1)) then
      extendLowF fuel a b alo blo ⟨st.i - 1, st.j - 1, st.size + 1⟩
    else st

def extendLow (a b : List Char) (alo blo : Nat) (st : FLMBlock) : FLMBlock :=
  extendLowF st.i a b alo blo st

/-- Forward extension loop of `find_longest_match` (junk variant likewise
a no-op).  Fuel `ahi` bounds the iteration count. -/
def extendHighF : Nat → List Char → List Char → Nat → Nat → FLMBlock → FLMBlock
  | 0, _, _, _, _, st => st
  | fuel + 1, a, b, ahi, bhi, st =>
    if st.i + st.size < ahi && st.j + st.size < bhi
        && (getC a (st.i + st.size) = getC b (st.j + st.size)) then
      extendHighF fuel a b ahi bhi ⟨st.i, st.j, st.size + 1⟩
    else st

def extendHigh (a b : List Char) (ahi bhi : Nat) (st : FLMBlock) : FLMBlock :=
  extendHighF ahi a b ahi bhi st

/-- difflib `SequenceMatcher.find_longest_match` with `isjunk=None`. -/
def find_longest_match (a b : List Char) (alo ahi blo bhi : Nat) : FLMBlock :=
  extendHigh a b ahi bhi (extendLow a b alo blo (flmScan a b alo ahi blo bhi))

/-- Total matched size of the recursive block decomposition performed by
`get_matching_blocks`.  Each recursion strictly shrinks the ranges, so fuel
`a.length + b.length + 1` always suffices. -/
def matchSumF : Nat → List Char → List Char → Nat → Nat → Nat → Nat → Nat
  | 0, _, _, _, _, _, _ => 0
  | fuel + 1, a, b, alo, ahi, blo, bhi =>
    let blk := find_longest_match a b alo ahi blo bhi
    if blk.size = 0 then 0
    else blk.size
      + (if alo < blk.i && blo < blk.j then matchSumF fuel a b alo blk.i blo blk.j else 0)
      + (if blk.i + blk.size < ahi && blk.j + blk.size < bhi then
           matchSumF fuel a b (blk.i + blk.size) ahi (blk.j + blk.size) bhi else 0)

def matchSum (a b : List Char) : Nat :=
  matchSumF (a.length + b.length + 1) a b 0 a.length 0 b.length

/-- difflib `SequenceMatcher.ratio`: `2.0 * matches / (len(a) + len(b))`,
or `1.0` when both sequences are empty; the Python float is modelled as an
exact rational. -/
def ratioQ (a b : List Char) : ℚ :=
  if a.length + b.length = 0 then 1
  else mkQ (2 * matchSum a b) (a.length + b.length)

/-- `SequenceMatcher(None, x, y).ratio()` on two strings. -/
def sequenceRatio (x y : String) : ℚ := ratioQ x.data y.data

/-- The hard-coded similarity threshold `0.6` of the scanner and matcher. -/
def simThreshold : ℚ := mkQ 6 10


/-! Candidate scanner (`scan_all_movie_files`). -/

def video_extensions : List String :=
  [".mp4", ".mkv", ".avi", ".mov", ".wmv", ".flv", ".webm", ".m4v", ".ts",
   ".m2ts", ".rmvb", ".rm", ".3gp", ".f4v"]

/-- `os.path.splitext(f.lower())[1] in video_extensions`. -/
def isVideoFile (f : String) : Bool :=
  video_extensions.contains ⟨(splitext (pyLower f).data).2⟩

/-- One directory visited by `os.walk`: its path and the plain files in it. -/
structure WalkEntry where
  root : String
  files : List String
deriving DecidableEq, Repr

/-- One entry of the candidate pool built by `scan_all_movie_files`
(`ctype` embeds the dict key `type`; `parent_folder` is only set on
`file_match` candidates, as in the code). -/
structure MatchCandidate where
  name : String
  path : String
  download_path : String
  ctype : String
  match_type : String
  similarity_with_file : ℚ
  sample_file : String
  file_count : Nat
  parent_folder : Option String
deriving DecidableEq, Repr

/-- The candidates `scan_all_movie_files` emits for one visited directory.
Mirrors the body of the `os.walk` loop. -/
def scanEntryCandidates (movie_path : String) (direct_subdirs : List String)
    (e : WalkEntry) : List MatchCandidate :=
  let video_files := e.files.filter isVideoFile
  if video_files.isEmpty then []
  else
    let current_dir := e.root
    let parent_dir_name : String := ⟨basenameP current_dir.data⟩
    let grandparent_dir : String := ⟨dirnameP current_dir.data⟩
    if current_dir = movie_path then []
    else
      let first_video := video_files.headD ""
      let file_name_clean : String := pyLower ⟨(splitext first_video.data).1⟩
      let folder_name_clean := pyLower parent_dir_name
      let similarity := sequenceRatio file_name_clean folder_name_clean
      let dpmt : String × String :=
        if simThreshold < similarity then (grandparent_dir, "folder_similar")
        else (current_dir, "folder_different")
      if direct_subdirs.contains parent_dir_name then
        video_files.map (fun vf =>
          { name := ⟨(splitext vf.data).1⟩
            path := current_dir
            download_path := dpmt.1
            ctype := "file_match"
            match_type := dpmt.2
            similarity_with_file := similarity
            sample_file := vf
            file_count := video_files.length
            parent_folder := some parent_dir_name })
      else
        [{ name := parent_dir_name
           path := current_dir
           download_path := dpmt.1
           ctype := "folder_match"
           match_type := dpmt.2
           similarity_with_file := similarity
           sample_file := first_video
           file_count := video_files.length
           parent_folder := none }]

/-- `scan_all_movie_files`: the walk result and the direct-subdirectory
name set are inputs (they come from the filesystem). -/
def scan_all_movie_files (movie_path : String) (walk : List WalkEntry)
    (direct_subdirs : List String) : List MatchCandidate :=
  walk.foldl (fun acc e => acc ++ scanEntryCandidates movie_path direct_subdirs e) []

/-! Torrent records and the reconciliation matcher
(`match_torrents_with_files`). -/

structure TorrentFile where
  name : String
  path : String
  size : Nat
  title : String
deriving DecidableEq, Repr

/-- Similarity computed by the matcher loop:
`SequenceMatcher(None, torrent_title, folder_name.lower()).ratio()` where
`torrent_title` is already lower-cased. -/
def torrentSim (torrent_title : String) (c : MatchCandidate) : ℚ :=
  sequenceRatio torrent_title (pyLower c.name)

/-- The running best of the candidate loop: best score (starts at 0) and
best candidate (starts absent); a candidate wins only with
`similarity > best_score and similarity > 0.6`. -/
def bestFold (torrent_title : String) (cands : List MatchCandidate) :
    ℚ × Option MatchCandidate :=
  cands.foldl (fun st c =>
    let s := torrentSim torrent_title c
    if st.1 < s && simThreshold < s then (s, some c) else st)
    (0, none)

/-- The `matched_file` record built for a successful match (the code fills
key `type` with the literal `folder_match` here). -/
structure MatchedFileInfo where
  name : String
  path : String
  download_path : String
  ftype : String
  match_type : String
  sample_file : String
  file_count : Nat
deriving DecidableEq, Repr

def mkMatchedFileInfo (c : MatchCandidate) : MatchedFileInfo :=
  { name := c.name
    path := c.path
    download_path := c.download_path
    ftype := "folder_match"
    match_type := c.match_type
    sample_file := c.sample_file
    file_count := c.file_count }

/-- One element of the `matched` list (`selected` is absent until
`apply_removed_torrent_records` sets it). -/
structure MatchedEntry where
  torrent : TorrentFile
  matched_file : MatchedFileInfo
  matched_filename : String
  similarity : ℚ
  selected : Option Bool
deriving DecidableEq, Repr

/-- The per-torrent loop of `match_torrents_with_files`, before the
suppression pass. -/
def matchTorrentsCore (torrents : List TorrentFile) (cands : List MatchCandidate) :
    List MatchedEntry × List TorrentFile :=
  torrents.foldl (fun acc t =>
    let torrent_title := pyLower t.title
    let best := bestFold torrent_title cands
    match best.2 with
    | some c => (acc.1 ++ [⟨t, mkMatchedFileInfo c, c.name, best.1, none⟩], acc.2)
    | none => (acc.1, acc.2 ++ [t]))
    ([], [])

/-! Suppression history (`generate_torrent_key`, `is_torrent_removed`,
`apply_removed_torrent_records`). -/

/-- The `matched_info` dict consumed by the suppression helpers. -/
structure MatchedInfo where
  name : String
  similarity : ℚ
  match_type : String
  download_path : String
deriving DecidableEq, Repr

/-- `int(x)` on an already-stripped token: optional sign then ASCII digits
(digit-group underscores are not modelled; the taxonomy values in use are
plain digit strings). -/
def digitsToNat (l : List Char) : Nat :=
  l.foldl (fun acc c => acc * 10 + (c.toNat - 48)) 0

/-- Round-half-to-even of the integer fraction `n / d` (`d > 0`). -/
def roundHalfEvenInt (n : Int) (d : Nat) : Int :=
  let f := Int.fdiv n (d : Int)
  let r := n - f * d
  if 2 * r < (d : Int) then f
  else if (d : Int) < 2 * r then f + 1
  else if f % 2 = 0 then f else f + 1

/-- A signed variant of `mkQ`. -/
def mkQZ (z : Int) (d : Nat) : ℚ :=
  if 0 ≤ z then mkQ z.toNat d else -(mkQ (-z).toNat d)

/-- Python `round(similarity, 2)`, modelled as exact half-to-even rounding
of the rational score to a multiple of 1/100. -/
def round2 (q : ℚ) : ℚ := mkQZ (roundHalfEvenInt (q.num * 100) q.den) 100

/-- Rendering of the rounded score inside the composite key.  Python
interpolates the float in decimal; any rendering that is a function of the
rounded value preserves the key-equality behaviour the claims are about. -/
def qRender (q : ℚ) : String := toString q.num ++ "/" ++ toString q.den

/-- `generate_torrent_key`: lower-cased stripped torrent title, lower-cased
stripped matched name, similarity rounded to 2 decimals, joined with `|`. -/
def generate_torrent_key (torrent_info : TorrentFile) (matched_info : MatchedInfo) :
    String :=
  pyStripStr (pyLower torrent_info.title) ++ "|" ++ pyStripStr (pyLower matched_info.name)
    ++ "|" ++ qRender (round2 matched_info.similarity)

/-- One persisted suppression record (`removed_torrents` values). -/
structure RemovedRecord where
  torrent_name : String
  torrent_title : String
  matched_filename : String
  similarity : ℚ
  match_type : String
  download_path : String
  removed_time : Int
  removed_count : Nat
  last_auto_removed : Option Int
deriving DecidableEq, Repr

/-- The persisted store `removed_torrents`, keyed by composite key. -/
abbrev RemovedStore : Type := List (String × RemovedRecord)

/-- `is_torrent_removed`: key membership in the store. -/
def is_torrent_removed (store : RemovedStore) (torrent_info : TorrentFile)
    (matched_info : MatchedInfo) : Bool :=
  (List.lookup (generate_torrent_key torrent_info matched_info) store).isSome

/-- Update the (first) binding of a key in the store, like a dict update. -/
def updateStore (store : RemovedStore) (k : String) (f : RemovedRecord → RemovedRecord) :
    RemovedStore :=
  match store with
  | [] => []
  | (k0, r) :: rest =>
    if k0 = k then (k0, f r) :: rest else (k0, r) :: updateStore rest k f

/-- The `matched_file_info` dict `apply_removed_torrent_records` builds for
each match. -/
def mfiOfMatch (m : MatchedEntry) : MatchedInfo :=
  { name := m.matched_filename
    similarity := m.similarity
    match_type := m.matched_file.match_type
    download_path := m.matched_file.download_path }

/-- One iteration of `apply_removed_torrent_records`: suppressed matches are
deselected and their record counter/timestamp bumped, others are selected. -/
def applyStep (now : Int) (st : RemovedStore × List MatchedEntry) (m : MatchedEntry) :
    RemovedStore × List MatchedEntry :=
  let mfi := mfiOfMatch m
  if is_torrent_removed st.1 m.torrent mfi then
    let key := generate_torrent_key m.torrent mfi
    let store := updateStore st.1 key (fun r =>
      { r with removed_count := r.removed_count + 1, last_auto_removed := some now })
    (store, st.2 ++ [{ m with selected := some false }])
  else (st.1, st.2 ++ [{ m with selected := some true }])

/-- `apply_removed_torrent_records` over the matched list, threading the
store. -/
def apply_removed_torrent_records (store : RemovedStore) (matched : List MatchedEntry)
    (now : Int) : RemovedStore × List MatchedEntry :=
  matched.foldl (applyStep now) (store, [])

/-- `match_torrents_with_files` after the candidate pool is in hand:
match every torrent, then apply the suppression history. -/
def reconcile (store : RemovedStore) (torrents : List TorrentFile)
    (cands : List MatchCandidate) (now : Int) :
    (List MatchedEntry × List TorrentFile) × RemovedStore :=
  let mu := matchTorrentsCore torrents cands
  let sm := apply_removed_torrent_records store mu.1 now
  ((sm.2, mu.2), sm.1)

/-- The whole of `match_torrents_with_files`: the candidate pool comes from
`scan_all_movie_files` on the configured media root. -/
def match_torrents_with_files (store : RemovedStore) (movie_path : String)
    (walk : List WalkEntry) (direct_subdirs : List String)
    (torrents : List TorrentFile) (now : Int) :
    (List MatchedEntry × List TorrentFile) × RemovedStore :=
  reconcile store torrents (scan_all_movie_files movie_path walk direct_subdirs) now

/-! Category classification (`match_category`, `check_conditions`). -/

/-- The TMDB metadata record consumed by the classifier.  Absent dict keys
are modelled as `none` for the scalar fields and `[]` for the list fields,
matching the `.get(..., default)` accesses in the code. -/
structure TmdbData where
  media_type : Option String
  genre_ids : List Int
  original_language : Option String
  origin_country : List String
  production_countries : List String
deriving DecidableEq, Repr

/-- `int(x)` after `.strip()`: optional sign then nonempty ASCII digits. -/
def parsePyInt (s : String) : Option Int :=
  match s.data with
  | '-' :: ds =>
    if !ds.isEmpty && ds.all Char.isDigit then some (-(digitsToNat ds : Int)) else none
  | '+' :: ds =>
    if !ds.isEmpty && ds.all Char.isDigit then some (digitsToNat ds : Int) else none
  | ds =>
    if !ds.isEmpty && ds.all Char.isDigit then some (digitsToNat ds : Int) else none

/-- `[int(x.strip()) for x in value.split(',')]`: `none` when any token
fails to parse (the `ValueError` the comprehension raises). -/
def parseIntList : List String → Option (List Int)
  | [] => some []
  | x :: xs =>
    match parsePyInt (pyStripStr x) with
    | none => none
    | some v => (parseIntList xs).map (fun vs => v :: vs)

/-- Rules are ordered association lists (Python dicts preserve insertion
order); a condition is a key together with its comma-separated value
string. -/
abbrev CategoryRules : Type := List (String × List (String × String))

/-- `check_conditions`: `none` models the `ValueError` that `int(...)`
raises on an unparseable genre token; otherwise `some` of whether every
non-empty condition holds. -/
def check_conditions (tmdb_data : TmdbData) : List (String × String) → Option Bool
  | [] => some true
  | (key, value) :: rest =>
    if value = "" then check_conditions tmdb_data rest
    else if key = "genre_ids" then
      match parseIntList (pySplitChar ',' value) with
      | none => none
      | some required_genres =>
        if required_genres.any (fun g => tmdb_data.genre_ids.contains g) then
          check_conditions tmdb_data rest
        else some false
    else if key = "original_language" then
      let required_langs := (pySplitChar ',' value).map (fun x => pyLower (pyStripStr x))
      if required_langs.contains (pyLower (tmdb_data.original_language.getD "")) then
        check_conditions tmdb_data rest
      else some false
    else if key = "origin_country" then
      let required_countries := (pySplitChar ',' value).map (fun x => pyUpper (pyStripStr x))
      if required_countries.any (fun c => tmdb_data.origin_country.contains c) then
        check_conditions tmdb_data rest
      else some false
    else if key = "production_countries" then
      let required_countries := (pySplitChar ',' value).map (fun x => pyUpper (pyStripStr x))
      if required_countries.any (fun c => tmdb_data.production_countries.contains c) then
        check_conditions tmdb_data rest
      else some false
    else check_conditions tmdb_data rest

/-- The taxonomy: one ordered rule list per media kind. -/
structure CategoryConfig where
  movie : CategoryRules
  tv : CategoryRules

/-- The hard-coded default category of `match_category`. -/
def defaultCategory (media_type : String) : String :=
  if media_type = "tv" then "欧美剧" else "欧美电影"

/-- The rule loop of `match_category`. -/
def matchCategoryGo (tmdb_data : TmdbData) (media_type : String) :
    CategoryRules → Option String
  | [] => some (defaultCategory media_type)
  | (category_name, conditions) :: rest =>
    match check_conditions tmdb_data conditions with
    | none => none
    | some true => some category_name
    | some false => matchCategoryGo tmdb_data media_type rest

/-- `match_category`: pick the kind's rules, return the first full match or
the default; `none` models the uncaught exception on a malformed genre
value. -/
def match_category (config : CategoryConfig) (tmdb_data : TmdbData) : Option String :=
  let media_type := tmdb_data.media_type.getD "movie"
  let categories := if media_type = "tv" then config.tv else config.movie
  matchCategoryGo tmdb_data media_type categories

/-- `get_default_category_config`, verbatim. -/
def default_category_config : CategoryConfig :=
  { movie :=
      [ ("中国动画电影", [("genre_ids", "16"), ("original_language", "zh,cn,bo,za")]),
        ("日韩动画电影", [("genre_ids", "16"), ("original_language", "ja,ko")]),
        ("欧美动画电影", [("genre_ids", "16")]),
        ("恐怖电影", [("genre_ids", "27")]),
        ("华语电影", [("original_language", "zh,cn,bo,za")]),
        ("日韩电影", [("original_language", "ja,ko")]),
        ("欧美电影", []) ]
    tv :=
      [ ("中国动漫", [("genre_ids", "16"), ("origin_country", "CN,TW,HK")]),
        ("儿童动漫", [("genre_ids", "10762")]),
        ("日韩动漫", [("genre_ids", "16"), ("origin_country", "JP,KR")]),
        ("欧美动漫", [("genre_ids", "16")]),
        ("中国纪录片", [("genre_ids", "99"), ("original_language", "zh,cn,bo,za")]),
        ("外国纪录片", [("genre_ids", "99")]),
        ("中国综艺", [("genre_ids", "10764,10767"), ("original_language", "zh,cn,bo,za")]),
        ("日韩综艺", [("genre_ids", "10764,10767"), ("original_language", "ja,ko")]),
        ("欧美综艺", [("genre_ids", "10764,10767")]),
        ("国产剧", [("origin_country", "CN,TW,HK")]),
        ("日韩剧", [("original_language", "ja,ko")]),
        ("欧美剧", []) ] }

/-! Verification monitor (`_check_pending_torrents`). -/

/-- One `pending_torrents` registry entry. -/
structure PendingInfo where
  tag : String
  add_time : Int
  path : String
  download_path : String
  skip_verify : Bool
  auto_start : Bool
deriving DecidableEq, Repr

/-- The state a qBittorrent lookup reports for a torrent. -/
structure QbTorrent where
  state : String
  progress : ℚ
  hash : String
deriving DecidableEq, Repr

/-- `state in ['pausedUP', 'stoppedUP'] and progress >= 1.0`. -/
def readyToStart (t : QbTorrent) : Bool :=
  (t.state = "pausedUP" || t.state = "stoppedUP") && (1 : ℚ) ≤ t.progress

/-- One poll tick of `_check_pending_torrents`.  `env` is the external
`qb_get_torrent_by_tag` lookup, `resumeOk` the result of the external
`qb_start_torrents` call (the code only logs it).  Returns the surviving
registry and the list of issued resume actions (hash, reported outcome). -/
def _check_pending_torrents (pending : List (String × PendingInfo))
    (env : String → Option QbTorrent) (resumeOk : String → Bool) (now : Int) :
    List (String × PendingInfo) × List (String × Bool) :=
  let st := pending.foldl (fun (acc : List String × List (String × Bool)) p =>
    match env p.1 with
    | none => (acc.1 ++ [p.1], acc.2)
    | some t =>
      if readyToStart t then
        let acts := if p.2.auto_start then acc.2 ++ [(t.hash, resumeOk t.hash)] else acc.2
        (acc.1 ++ [p.1], acts)
      else if t.state = "error" || t.state = "missingFiles" then
        (acc.1 ++ [p.1], acc.2)
      else if 24 * 3600 < now - p.2.add_time then
        (acc.1 ++ [p.1], acc.2)
      else acc)
    ([], [])
  (pending.filter (fun p => !st.1.contains p.1), st.2)

/-! Taxonomy saving (`save_category_config`). -/

/-- The YAML values relevant to the validation in `save_category_config`:
a mapping, or anything else (scalars, lists, null). -/
inductive YamlVal
  | mapping (entries : List (String × YamlVal))
  | other
deriving Repr

def yamlIsDict : YamlVal → Bool
  | .mapping _ => true
  | .other => false

def yamlHasKey (v : YamlVal) (k : String) : Bool :=
  match v with
  | .mapping es => es.any (fun e => e.1 = k)
  | .other => false

/-- The manager state `save_category_config` can touch: the active
in-memory taxonomy and the stored config file. -/
structure CategoryState where
  category_config : YamlVal
  config_file_text : Option String

/-- `save_category_config`: the external `yaml.safe_load` result is an
input.  A parse error is caught (`yaml.YAMLError`), a non-mapping or a
mapping missing `movie`/`tv` raises `ValueError`, caught by the generic
handler; both paths return `False` having written nothing.  Only a valid
config is written to the file and installed in memory. -/
def save_category_config (parse_result : Except String YamlVal)
    (config_text : String) (st : CategoryState) : Bool × CategoryState :=
  match parse_result with
  | .error _ => (false, st)
  | .ok config =>
    if yamlIsDict config && yamlHasKey config "movie" && yamlHasKey config "tv" then
      (true, { category_config := config, config_file_text := some config_text })
    else (false, st)

/-! Store lemmas shared by the suppression theorems. -/

theorem updateStore_keys (store : RemovedStore) (k : String)
    (f : RemovedRecord → RemovedRecord) :
    (updateStore store k f).map Prod.fst = store.map Prod.fst := by
  induction store with
  | nil => rfl
  | cons p rest ih =>
    obtain ⟨k0, r⟩ := p
    by_cases h : k0 = k
    · simp [updateStore, h]
    · simp [updateStore, h, ih]

theorem lookup_updateStore_self (store : RemovedStore) (k : String)
    (f : RemovedRecord → RemovedRecord) :
    List.lookup k (updateStore store k f) = (List.lookup k store).map f := by
  induction store with
  | nil => rfl
  | cons p rest ih =>
    obtain ⟨k0, r⟩ := p
    by_cases h : k0 = k
    · subst h
      simp [updateStore, List.lookup]
    · have hne : (k == k0) = false := by
        simp [Ne.symm h]
      simp [updateStore, h, List.lookup, hne, ih]

theorem lookup_updateStore_ne (store : RemovedStore) (k k2 : String)
    (f : RemovedRecord → RemovedRecord) (h : k2 ≠ k) :
    List.lookup k2 (updateStore store k f) = List.lookup k2 store := by
  induction store with
  | nil => rfl
  | cons p rest ih =>
    obtain ⟨k0, r⟩ := p
    by_cases h0 : k0 = k
    · subst h0
      have hne : (k2 == k0) = false := by simp [h]
      simp [updateStore, List.lookup, hne]
    · by_cases h2 : k2 = k0
      · subst h2
        simp [updateStore, h0, List.lookup]
      · have hne : (k2 == k0) = false := by simp [h2]
        simp [updateStore, h0, List.lookup, hne, ih]

theorem applyStep_keys (now : Int) (st : RemovedStore × List MatchedEntry)
    (m : MatchedEntry) :
    ((applyStep now st m).1).map Prod.fst = st.1.map Prod.fst := by
  by_cases h : is_torrent_removed st.1 m.torrent (mfiOfMatch m)
  · simp [applyStep, h, updateStore_keys]
  · simp [applyStep, h]

theorem apply_removed_keys_aux (now : Int) :
    ∀ (ms : List MatchedEntry) (st : RemovedStore × List MatchedEntry),
      ((ms.foldl (applyStep now) st).1).map Prod.fst = st.1.map Prod.fst := by
  intro ms
  induction ms with
  | nil => intro st; rfl
  | cons m rest ih =>
    intro st
    simpa [List.foldl_cons, ih (applyStep now st m)] using applyStep_keys now st m

/-- Closed form of one suppression run on a single match. -/
theorem apply_removed_single (s : RemovedStore) (m : MatchedEntry) (t : Int) :
    (apply_removed_torrent_records s [m] t).1
      = if is_torrent_removed s m.torrent (mfiOfMatch m) then
          updateStore s (generate_torrent_key m.torrent (mfiOfMatch m))
            (fun r => { r with removed_count := r.removed_count + 1,
                               last_auto_removed := some t })
        else s := by
  by_cases h : is_torrent_removed s m.torrent (mfiOfMatch m)
  · simp [apply_removed_torrent_records, applyStep, h]
  · simp [apply_removed_torrent_records, applyStep, h]

/-- C4: the reconciliation suppression step is idempotent on the history
store.  The key set of `removed_torrents` is preserved by every run; on a
fixed torrent/candidate pair, two runs with no intervening change compute
the same composite key (a pure function of the pair), create no record —
the pair's binding after two runs is exactly the original binding with its
counter bumped twice and its last-auto-suppressed timestamp set by the
second run, and stays absent if no record existed — and leave every other
key's binding untouched. -/
theorem apply_removed_records_idempotent :
    (∀ (store : RemovedStore) (ms : List MatchedEntry) (now : Int),
      ((apply_removed_torrent_records store ms now).1).map Prod.fst
        = store.map Prod.fst) ∧
    (∀ (store : RemovedStore) (m : MatchedEntry) (t1 t2 : Int),
      (List.lookup (generate_torrent_key m.torrent (mfiOfMatch m))
          ((apply_removed_torrent_records
            ((apply_removed_torrent_records store [m] t1).1) [m] t2).1)
        = (List.lookup (generate_torrent_key m.torrent (mfiOfMatch m)) store).map
            (fun r => { r with removed_count := r.removed_count + 2,
                               last_auto_removed := some t2 })) ∧
      (∀ k, k ≠ generate_torrent_key m.torrent (mfiOfMatch m) →
        List.lookup k
            ((apply_removed_torrent_records
              ((apply_removed_torrent_records store [m] t1).1) [m] t2).1)
          = List.lookup k store)) := by
  constructor
  · intro store ms now
    exact apply_removed_keys_aux now ms (store, [])
  · intro store m t1 t2
    cases hlk : List.lookup (generate_torrent_key m.torrent (mfiOfMatch m)) store with
    | none =>
      have hrem : is_torrent_removed store m.torrent (mfiOfMatch m) = false := by
        simp [is_torrent_removed, hlk]
      have hs1 : (apply_removed_torrent_records store [m] t1).1 = store := by
        rw [apply_removed_single, if_neg]
        simp [hrem]
      rw [hs1]
      have hs2 : (apply_removed_torrent_records store [m] t2).1 = store := by
        rw [apply_removed_single, if_neg]
        simp [hrem]
      rw [hs2, hlk]
      exact ⟨rfl, fun k _ => rfl⟩
    | some r =>
      have hrem : is_torrent_removed store m.torrent (mfiOfMatch m) = true := by
        simp [is_torrent_removed, hlk]
      have hs1 : (apply_removed_torrent_records store [m] t1).1
          = updateStore store (generate_torrent_key m.torrent (mfiOfMatch m))
              (fun r => { r with removed_count := r.removed_count + 1,
                                 last_auto_removed := some t1 }) := by
        rw [apply_removed_single, if_pos]
        simp [hrem]
      have hlk1 : List.lookup (generate_torrent_key m.torrent (mfiOfMatch m))
          ((apply_removed_torrent_records store [m] t1).1)
          = some { r with removed_count := r.removed_count + 1,
                          last_auto_removed := some t1 } := by
        rw [hs1, lookup_updateStore_self, hlk]
        rfl
      have hrem1 : is_torrent_removed ((apply_removed_torrent_records store [m] t1).1)
          m.torrent (mfiOfMatch m) = true := by
        simp [is_torrent_removed, hlk1]
      have hs2 : (apply_removed_torrent_records
            ((apply_removed_torrent_records store [m] t1).1) [m] t2).1
          = updateStore ((apply_removed_torrent_records store [m] t1).1)
              (generate_torrent_key m.torrent (mfiOfMatch m))
              (fun r => { r with removed_count := r.removed_count + 1,
                                 last_auto_removed := some t2 }) := by
        rw [apply_removed_single, if_pos]
        simp [hrem1]
      constructor
      · rw [hs2, lookup_updateStore_self, hlk1]
        simp only [Option.map_some']
      · intro k hk
        rw [hs2, lookup_updateStore_ne _ _ _ _ hk, hs1, lookup_updateStore_ne _ _ _ _ hk]

def c4Torrent : TorrentFile := ⟨"A.torrent", "/t/A.torrent", 7, "Foo"⟩

def c4Match : MatchedEntry :=
  ⟨c4Torrent, ⟨"Bar", "/m/Bar", "/m", "folder_match", "folder_similar", "s.mkv", 1⟩,
    "Bar", mkQ 7 10, none⟩

def c4Key : String := generate_torrent_key c4Torrent (mfiOfMatch c4Match)

def c4Store : RemovedStore :=
  [(c4Key, ⟨"A.torrent", "Foo", "Bar", mkQ 7 10, "folder_similar", "/m", 11, 3, none⟩)]

/-- Closed instance of the suppression idempotence theorem: one stored
record for the pair, two runs; the counter goes 3 to 5, the timestamp
becomes the second run's, and an unrelated key keeps its (absent) binding. -/
theorem apply_removed_records_idempotent_witness :
    List.lookup c4Key
        ((apply_removed_torrent_records
          ((apply_removed_torrent_records c4Store [c4Match] 50).1) [c4Match] 90).1)
      = some ⟨"A.torrent", "Foo", "Bar", mkQ 7 10, "folder_similar", "/m", 11, 5, some 90⟩
    ∧ List.lookup "other"
        ((apply_removed_torrent_records
          ((apply_removed_torrent_records c4Store [c4Match] 50).1) [c4Match] 90).1)
      = List.lookup "other" c4Store := by
  constructor
  · have h := (apply_removed_records_idempotent.2 c4Store c4Match 50 90).1
    rw [show c4Key = generate_torrent_key c4Match.torrent (mfiOfMatch c4Match) from rfl, h]
    decide
  · exact (apply_removed_records_idempotent.2 c4Store c4Match 50 90).2 "other" (by decide)

/-- C10: the composite suppression key is a function of exactly three
values — the lower-cased stripped torrent title, the lower-cased stripped
matched name, and the similarity rounded to two decimals.  Two pairs that
agree on those three values get identical keys, whatever their paths,
sizes, match types or download paths, and a suppression recorded under one
suppresses the other against any store. -/
theorem generate_torrent_key_three_inputs
    (t1 t2 : TorrentFile) (m1 m2 : MatchedInfo) (store : RemovedStore)
    (ht : pyStripStr (pyLower t1.title) = pyStripStr (pyLower t2.title))
    (hn : pyStripStr (pyLower m1.name) = pyStripStr (pyLower m2.name))
    (hs : round2 m1.similarity = round2 m2.similarity) :
    generate_torrent_key t1 m1 = generate_torrent_key t2 m2
      ∧ is_torrent_removed store t1 m1 = is_torrent_removed store t2 m2 := by
  have hk : generate_torrent_key t1 m1 = generate_torrent_key t2 m2 := by
    unfold generate_torrent_key
    rw [ht, hn, hs]
  exact ⟨hk, by unfold is_torrent_removed; rw [hk]⟩

/-- Closed instance of the key-locality theorem: two pairs with different
names, paths, sizes, match types and download paths, agreeing only on the
three key inputs, produce the same key, found in the same store. -/
theorem generate_torrent_key_three_inputs_witness :
    generate_torrent_key (⟨"a.torrent", "/t/a", 5, " Foo"⟩ : TorrentFile)
        (⟨"Bar", mkQ 7 10, "folder_similar", "/m/x"⟩ : MatchedInfo)
      = generate_torrent_key (⟨"b.torrent", "/zzz/b", 999, "foo "⟩ : TorrentFile)
        (⟨"bAR ", mkQ 7 10, "folder_different", "/n/y"⟩ : MatchedInfo)
    ∧ is_torrent_removed
        [("foo|bar|7/10", ⟨"a.torrent", "Foo", "Bar", mkQ 7 10, "x", "y", 0, 1, none⟩)]
        (⟨"a.torrent", "/t/a", 5, " Foo"⟩ : TorrentFile)
        (⟨"Bar", mkQ 7 10, "folder_similar", "/m/x"⟩ : MatchedInfo)
      = is_torrent_removed
        [("foo|bar|7/10", ⟨"a.torrent", "Foo", "Bar", mkQ 7 10, "x", "y", 0, 1, none⟩)]
        (⟨"b.torrent", "/zzz/b", 999, "foo "⟩ : TorrentFile)
        (⟨"bAR ", mkQ 7 10, "folder_different", "/n/y"⟩ : MatchedInfo) :=
  generate_torrent_key_three_inputs _ _ _ _ _ (by decide) (by decide) (by decide)

/-- C7: `save_category_config` on malformed input — text `yaml.safe_load`
rejects, or a parse that is not a mapping carrying both `movie` and `tv` —
reports failure (`False`) to the caller and leaves the active taxonomy and
the stored file untouched. -/
theorem save_category_config_rejects_malformed
    (parse_result : Except String YamlVal) (config_text : String) (st : CategoryState)
    (h : (∃ e, parse_result = .error e) ∨
         (∃ v, parse_result = .ok v ∧
            (yamlIsDict v && yamlHasKey v "movie" && yamlHasKey v "tv") = false)) :
    save_category_config parse_result config_text st = (false, st) := by
  rcases h with ⟨e, he⟩ | ⟨v, hv, hinv⟩
  · subst he
    rfl
  · subst hv
    simp [save_category_config, hinv]

/-- Closed instances of the taxonomy-rejection theorem: a parse error, a
non-mapping parse, and a mapping missing `tv` all leave the state alone. -/
theorem save_category_config_rejects_malformed_witness :
    save_category_config (.error "bad") "x" ⟨.other, none⟩ = (false, ⟨.other, none⟩)
    ∧ save_category_config (.ok .other) "x" ⟨.other, none⟩ = (false, ⟨.other, none⟩)
    ∧ save_category_config (.ok (.mapping [("movie", .other)])) "x" ⟨.other, none⟩
        = (false, ⟨.other, none⟩) :=
  ⟨save_category_config_rejects_malformed _ _ _ (.inl ⟨"bad", rfl⟩),
   save_category_config_rejects_malformed _ _ _ (.inr ⟨.other, rfl, by decide⟩),
   save_category_config_rejects_malformed _ _ _
     (.inr ⟨.mapping [("movie", .other)], rfl, by decide⟩)⟩

/-- C9 counterexample: on `Movie_Title_1080p_BluRay-GROUP.mkv` the
extractor does not return `Movie Title`. -/
theorem extract_title_movie_group_counterexample :
    extract_title_from_filename "Movie_Title_1080p_BluRay-GROUP.mkv" ≠ "Movie Title" := by
  decide

/-- C9 (amended): on `Movie_Title_1080p_BluRay-GROUP.mkv` the pre-clean
strips only the trailing `-GROUP` token (the quality and source tokens are
flanked by underscores, which are word characters, so `\b` never matches
around them), and rule 0 then returns the text before the first
underscore: exactly `Movie`. -/
theorem extract_title_movie_group :
    preClean (splitext "Movie_Title_1080p_BluRay-GROUP.mkv".data).1
        = "Movie_Title_1080p_BluRay".data
      ∧ extract_title_tagged "Movie_Title_1080p_BluRay-GROUP.mkv"
        = (.rule0, "Movie".data) := by
  decide

/-- C1 counterexample: on `.._a.mkv` rule 0 fires (the pre-underscore text
`..` has length 2) but dot-to-space replacement plus strip empties it, so
the extractor returns the empty string, against the claimed guarantee of a
result of length at least 1. -/
theorem extract_title_empty_counterexample :
    extract_title_from_filename ".._a.mkv" = ""
      ∧ ¬ 1 ≤ (extract_title_from_filename ".._a.mkv").length := by
  decide

theorem tryRule0_ne5 {name : List Char} {r : ExtractRule × List Char}
    (h : tryRule0 name = some r) : r.1 ≠ ExtractRule.rule5 := by
  unfold tryRule0 at h
  dsimp only at h
  split at h
  · split at h
    · cases h
      simp
    · exact absurd h (by simp)
  · exact absurd h (by simp)

theorem rule1Inner_ne5 (bc : List Char) : (rule1Inner bc).1 ≠ ExtractRule.rule5 := by
  unfold rule1Inner
  dsimp only
  split
  · split
    · simp
    · simp
  · simp

theorem tryRule1_ne5 {name : List Char} {r : ExtractRule × List Char}
    (h : tryRule1 name = some r) : r.1 ≠ ExtractRule.rule5 := by
  unfold tryRule1 at h
  split at h
  · dsimp only at h
    split at h
    · split at h
      · split at h
        · split at h
          · cases h
            simp
          · cases h
            exact rule1Inner_ne5 _
        · cases h
          exact rule1Inner_ne5 _
      · cases h
        simp
    · exact absurd h (by simp)
  · exact absurd h (by simp)

theorem rule2Inner_ne5 (ct : List Char) : (rule2Inner ct).1 ≠ ExtractRule.rule5 := by
  unfold rule2Inner
  dsimp only
  split
  · split
    · simp
    · simp
  · simp

theorem tryRule2_ne5 {name : List Char} {r : ExtractRule × List Char}
    (h : tryRule2 name = some r) : r.1 ≠ ExtractRule.rule5 := by
  unfold tryRule2 at h
  dsimp only at h
  split at h
  · split at h
    · split at h
      · split at h
        · cases h
          simp
        · cases h
          exact rule2Inner_ne5 _
      · cases h
        exact rule2Inner_ne5 _
    · exact absurd h (by simp)
  · exact absurd h (by simp)

theorem tryRule34_ne5 {name : List Char} {r : ExtractRule × List Char}
    (h : tryRule34 name = some r) : r.1 ≠ ExtractRule.rule5 := by
  unfold tryRule34 at h
  split at h
  · split at h
    · cases h
      simp
    · cases h
      simp
  · cases h
    simp
  · cases h
    simp
  · exact absurd h (by simp)

/-- C1 (amended): extraction always terminates and returns a string, but
an early rule can return the empty string (rule 0 on `.._a.mkv`).  What
does hold: whenever the cascade reaches the rule-5 fallback, the result is
the cleaned name when that has at least 2 characters and otherwise the
original extension-stripped name — in particular it is non-empty whenever
the extension-stripped name is non-empty. -/
theorem extract_title_fallback_nonempty (filename : String)
    (h5 : (extract_title_tagged filename).1 = ExtractRule.rule5)
    (h0 : (splitext filename.data).1 ≠ []) :
    extract_title_from_filename filename ≠ "" := by
  unfold extract_title_from_filename
  cases h1 : tryRule0 (preClean (splitext filename.data).1) with
  | some r =>
    have hr : (extract_title_tagged filename).1 = r.1 := by
      simp [extract_title_tagged, h1]
    rw [h5] at hr
    exact absurd hr.symm (tryRule0_ne5 h1)
  | none =>
  cases h2 : tryRule1 (preClean (splitext filename.data).1) with
  | some r =>
    have hr : (extract_title_tagged filename).1 = r.1 := by
      simp [extract_title_tagged, h1, h2]
    rw [h5] at hr
    exact absurd hr.symm (tryRule1_ne5 h2)
  | none =>
  cases h3 : tryRule2 (preClean (splitext filename.data).1) with
  | some r =>
    have hr : (extract_title_tagged filename).1 = r.1 := by
      simp [extract_title_tagged, h1, h2, h3]
    rw [h5] at hr
    exact absurd hr.symm (tryRule2_ne5 h3)
  | none =>
  cases h4 : tryRule34 (preClean (splitext filename.data).1) with
  | some r =>
    have hr : (extract_title_tagged filename).1 = r.1 := by
      simp [extract_title_tagged, h1, h2, h3, h4]
    rw [h5] at hr
    exact absurd hr.symm (tryRule34_ne5 h4)
  | none =>
    have hres : (extract_title_tagged filename).2
        = (rule5Result (preClean (splitext filename.data).1)
            (splitext filename.data).1).2 := by
      simp [extract_title_tagged, h1, h2, h3, h4]
    rw [hres]
    unfold rule5Result
    dsimp only
    split
    · dsimp only
      intro hcontra
      exact h0 ((stringMk_eq_empty_iff _).mp hcontra)
    · rename_i hlen
      dsimp only
      intro hcontra
      apply hlen
      rw [(stringMk_eq_empty_iff _).mp hcontra]
      decide

/-- Closed instance of the fallback theorem: `abc` reaches rule 5 with a
non-empty extension-stripped name and yields a non-empty title. -/
theorem extract_title_fallback_nonempty_witness :
    (extract_title_tagged "abc").1 = ExtractRule.rule5
      ∧ (splitext "abc".data).1 ≠ []
      ∧ extract_title_from_filename "abc" ≠ "" :=
  ⟨by decide, by decide,
    extract_title_fallback_nonempty "abc" (by decide) (by decide)⟩

/-! Monitor-tick specification (claim C6). -/

/-- Removal condition read off the tick's branch structure: an entry goes
when its lookup fails, it is ready to start, it reports an error state, or
it is older than 24 hours. -/
def monitorRemoves (env : String → Option QbTorrent) (now : Int)
    (p : String × PendingInfo) : Bool :=
  match env p.1 with
  | none => true
  | some t =>
    readyToStart t || t.state = "error" || t.state = "missingFiles"
      || decide (24 * 3600 < now - p.2.add_time)

/-- The resume action (if any) the tick issues for one entry: exactly the
ready-to-start entries with auto-start set get one. -/
def monitorResume (env : String → Option QbTorrent) (resumeOk : String → Bool)
    (p : String × PendingInfo) : Option (String × Bool) :=
  match env p.1 with
  | none => none
  | some t =>
    if readyToStart t && p.2.auto_start then some (t.hash, resumeOk t.hash) else none

theorem check_pending_fold_char (env : String → Option QbTorrent)
    (resumeOk : String → Bool) (now : Int) :
    ∀ (pending : List (String × PendingInfo)) (acc : List String × List (String × Bool)),
      pending.foldl (fun (acc : List String × List (String × Bool)) p =>
          match env p.1 with
          | none => (acc.1 ++ [p.1], acc.2)
          | some t =>
            if readyToStart t then
              let acts := if p.2.auto_start then acc.2 ++ [(t.hash, resumeOk t.hash)] else acc.2
              (acc.1 ++ [p.1], acts)
            else if t.state = "error" || t.state = "missingFiles" then
              (acc.1 ++ [p.1], acc.2)
            else if 24 * 3600 < now - p.2.add_time then
              (acc.1 ++ [p.1], acc.2)
            else acc) acc
        = (acc.1 ++ pending.filterMap
              (fun p => if monitorRemoves env now p then some p.1 else none),
           acc.2 ++ pending.filterMap (monitorResume env resumeOk)) := by
  intro pending
  induction pending with
  | nil =>
    intro acc
    simp
  | cons p ps ih =>
    intro acc
    rw [List.foldl_cons, ih]
    cases henv : env p.1 with
    | none =>
      simp [List.filterMap_cons, monitorRemoves, monitorResume, henv]
    | some t =>
      by_cases hready : readyToStart t
      · by_cases hauto : p.2.auto_start
        · simp [List.filterMap_cons, monitorRemoves, monitorResume, henv, hready, hauto]
        · simp [List.filterMap_cons, monitorRemoves, monitorResume, henv, hready, hauto]
      · by_cases herr : (t.state = "error" || t.state = "missingFiles") = true
        · simp [List.filterMap_cons, monitorRemoves, monitorResume, henv, hready, herr]
        · by_cases hold : (86400 : Int) < now - p.2.add_time
          · simp [List.filterMap_cons, monitorRemoves, monitorResume, henv, hready,
              herr, hold]
          · simp [List.filterMap_cons, monitorRemoves, monitorResume, henv, hready,
              herr, hold]

/-- C6 (amended): on one poll tick, the issued resume actions are exactly
one per registry entry (in registry order) whose lookup succeeds, reports
`pausedUP`/`stoppedUP` with progress at least 1.0, and has auto-start set —
each such entry is removed from the registry regardless of the reported
resume outcome; and an entry is removed exactly when its lookup fails, it
is ready to start, it reports `error`/`missingFiles`, or its add time is
more than 24 hours in the past.  In particular an old entry is always
removed, but when it simultaneously qualifies as ready-to-start with
auto-start set its removal comes with a resume action, because the ready
check precedes the timeout check. -/
theorem check_pending_torrents_tick (pending : List (String × PendingInfo))
    (env : String → Option QbTorrent) (resumeOk : String → Bool) (now : Int)
    (hnd : (pending.map Prod.fst).Nodup) :
    _check_pending_torrents pending env resumeOk now
      = (pending.filter (fun p => !monitorRemoves env now p),
         pending.filterMap (monitorResume env resumeOk)) := by
  unfold _check_pending_torrents
  rw [check_pending_fold_char env resumeOk now pending ([], [])]
  simp only [List.nil_append]
  congr 1
  apply List.filter_congr
  intro p hp
  congr 1
  by_cases hrem : monitorRemoves env now p = true
  · have hmem : p.1 ∈ pending.filterMap
        (fun q => if monitorRemoves env now q then some q.1 else none) := by
      rw [List.mem_filterMap]
      exact ⟨p, hp, by rw [if_pos hrem]⟩
    rw [hrem]
    exact List.elem_iff.mpr hmem
  · have hnmem : ¬ p.1 ∈ pending.filterMap
        (fun q => if monitorRemoves env now q then some q.1 else none) := by
      intro hmem
      rw [List.mem_filterMap] at hmem
      obtain ⟨q, hq, hqe⟩ := hmem
      by_cases hq2 : monitorRemoves env now q = true
      · rw [if_pos hq2] at hqe
        have hqp : q = p :=
          List.inj_on_of_nodup_map hnd hq hp (Option.some.inj hqe)
        rw [hqp] at hq2
        exact hrem hq2
      · rw [if_neg hq2] at hqe
        exact Option.noConfusion hqe
    rw [Bool.eq_false_iff.mpr hrem]
    exact Bool.eq_false_iff.mpr (fun hc => hnmem (List.elem_iff.mp hc))

/-- C6 counterexample: a registry entry added more than 24 hours ago that
also reports `pausedUP` at progress 1.0 with auto-start set is removed
*with* one resume action, contradicting the claim that every entry older
than 24 hours is removed without any resume action. -/
theorem check_pending_old_entry_resumed_counterexample :
    (24 * 3600 : Int) < 100000 - 0
      ∧ (_check_pending_torrents [("t", ⟨"t", 0, "/p", "/d", false, true⟩)]
          (fun tag => if tag = "t" then some ⟨"pausedUP", 1, "h"⟩ else none)
          (fun _ => true) 100000).2 = [("h", true)]
      ∧ (_check_pending_torrents [("t", ⟨"t", 0, "/p", "/d", false, true⟩)]
          (fun tag => if tag = "t" then some ⟨"pausedUP", 1, "h"⟩ else none)
          (fun _ => true) 100000).1 = [] := by
  refine ⟨by decide, ?_, ?_⟩ <;> decide

/-- Closed instance of the tick theorem: a two-entry registry (one ready
with auto-start, one merely old) keeps nothing, and issues exactly one
resume for the ready entry. -/
theorem check_pending_torrents_tick_witness :
    _check_pending_torrents
        [("a", ⟨"a", 90000, "/p1", "/d1", false, true⟩),
         ("b", ⟨"b", 0, "/p2", "/d2", false, true⟩)]
        (fun tag => if tag = "a" then some ⟨"pausedUP", 1, "ha"⟩
                    else if tag = "b" then some ⟨"downloading", mkQ 1 2, "hb"⟩
                    else none)
        (fun _ => true) 100000
      = ([("a", ⟨"a", 90000, "/p1", "/d1", false, true⟩),
          ("b", ⟨"b", 0, "/p2", "/d2", false, true⟩)].filter
            (fun p => !monitorRemoves
              (fun tag => if tag = "a" then some ⟨"pausedUP", 1, "ha"⟩
                          else if tag = "b" then some ⟨"downloading", mkQ 1 2, "hb"⟩
                          else none) 100000 p),
         [("a", ⟨"a", 90000, "/p1", "/d1", false, true⟩),
          ("b", ⟨"b", 0, "/p2", "/d2", false, true⟩)].filterMap
            (monitorResume
              (fun tag => if tag = "a" then some ⟨"pausedUP", 1, "ha"⟩
                          else if tag = "b" then some ⟨"downloading", mkQ 1 2, "hb"⟩
                          else none) (fun _ => true)))
      ∧ ([("a", ⟨"a", 90000, "/p1", "/d1", false, true⟩),
          ("b", ⟨"b", 0, "/p2", "/d2", false, true⟩)].filterMap
            (monitorResume
              (fun tag => if tag = "a" then some ⟨"pausedUP", 1, "ha"⟩
                          else if tag = "b" then some ⟨"downloading", mkQ 1 2, "hb"⟩
                          else none) (fun _ => true))) = [("ha", true)] :=
  ⟨check_pending_torrents_tick _ _ _ _ (by decide), by decide⟩

/-! Classifier specification (claim C5). -/

/-- One condition, as the claim states it: the metadata field must
intersect the rule's required-value list — integer-set intersection for
genre ids, case-insensitive comparison for the language, case-normalized
codes for the country lists; a missing metadata field fails the
condition; keys outside the four supported ones do not constrain. -/
def specCondHolds (md : TmdbData) (key value : String) : Bool :=
  if key = "genre_ids" then
    ((pySplitChar ',' value).filterMap (fun x => parsePyInt (pyStripStr x))).any
      (fun g => md.genre_ids.contains g)
  else if key = "original_language" then
    match md.original_language with
    | none => false
    | some l => ((pySplitChar ',' value).map (fun x => pyLower (pyStripStr x))).contains
        (pyLower l)
  else if key = "origin_country" then
    ((pySplitChar ',' value).map (fun x => pyUpper (pyStripStr x))).any
      (fun c => md.origin_country.contains c)
  else if key = "production_countries" then
    ((pySplitChar ',' value).map (fun x => pyUpper (pyStripStr x))).any
      (fun c => md.production_countries.contains c)
  else true

/-- A rule matches when every non-empty condition holds (AND across keys,
any-of within a key). -/
def specRuleMatches (md : TmdbData) (conds : List (String × String)) : Bool :=
  conds.all (fun kv => kv.2 = "" || specCondHolds md kv.1 kv.2)

/-- First matching rule in declared order, else the kind's fallback. -/
def specClassify (config : CategoryConfig) (md : TmdbData) : String :=
  let media_type := md.media_type.getD "movie"
  let cats := if media_type = "tv" then config.tv else config.movie
  match cats.find? (fun rule => specRuleMatches md rule.2) with
  | some rule => rule.1
  | none => defaultCategory media_type

/-- Well-formedness of a condition list for a given record: genre values
parse as integers, and language token lists contain no empty token when
the record has no language (the code compares the missing language as an
empty string, which an empty token would spuriously match). -/
abbrev condsWF (md : TmdbData) (conds : List (String × String)) : Prop :=
  ∀ kv ∈ conds,
    (kv.1 = "genre_ids" → kv.2 ≠ "" →
      ∀ tok ∈ pySplitChar ',' kv.2, (parsePyInt (pyStripStr tok)).isSome)
    ∧ (kv.1 = "original_language" → md.original_language = none →
      ¬ "" ∈ (pySplitChar ',' kv.2).map (fun x => pyLower (pyStripStr x)))

theorem parseIntList_eq_filterMap (l : List String)
    (h : ∀ tok ∈ l, (parsePyInt (pyStripStr tok)).isSome) :
    parseIntList l = some (l.filterMap (fun x => parsePyInt (pyStripStr x))) := by
  induction l with
  | nil => rfl
  | cons x xs ih =>
    have hx := h x (List.mem_cons_self x xs)
    cases hpx : parsePyInt (pyStripStr x) with
    | none =>
      rw [hpx] at hx
      exact absurd hx (by simp)
    | some v =>
      have ihx := ih (fun tok htok => h tok (List.mem_cons_of_mem x htok))
      simp [parseIntList, hpx, ihx, List.filterMap_cons]

theorem check_conditions_cons_empty (md : TmdbData) (key : String)
    (rest : List (String × String)) :
    check_conditions md ((key, "") :: rest) = check_conditions md rest := by
  simp only [check_conditions, if_true]

theorem check_conditions_cons_genre (md : TmdbData) (value : String)
    (rest : List (String × String)) (hv : value ≠ "") :
    check_conditions md (("genre_ids", value) :: rest)
      = match parseIntList (pySplitChar ',' value) with
        | none => none
        | some required_genres =>
          if required_genres.any (fun g => md.genre_ids.contains g) then
            check_conditions md rest
          else some false := by
  simp only [check_conditions]
  rw [if_neg hv]
  simp only [if_true]

theorem check_conditions_cons_lang (md : TmdbData) (value : String)
    (rest : List (String × String)) (hv : value ≠ "") :
    check_conditions md (("original_language", value) :: rest)
      = if ((pySplitChar ',' value).map (fun x => pyLower (pyStripStr x))).contains
            (pyLower (md.original_language.getD "")) then
          check_conditions md rest
        else some false := by
  simp only [check_conditions]
  rw [if_neg hv, if_neg (by decide : ¬("original_language" : String) = "genre_ids")]
  simp only [if_true]

theorem check_conditions_cons_origin (md : TmdbData) (value : String)
    (rest : List (String × String)) (hv : value ≠ "") :
    check_conditions md (("origin_country", value) :: rest)
      = if ((pySplitChar ',' value).map (fun x => pyUpper (pyStripStr x))).any
            (fun c => md.origin_country.contains c) then
          check_conditions md rest
        else some false := by
  simp only [check_conditions]
  rw [if_neg hv, if_neg (by decide : ¬("origin_country" : String) = "genre_ids"),
    if_neg (by decide : ¬("origin_country" : String) = "original_language")]
  simp only [if_true]

theorem check_conditions_cons_production (md : TmdbData) (value : String)
    (rest : List (String × String)) (hv : value ≠ "") :
    check_conditions md (("production_countries", value) :: rest)
      = if ((pySplitChar ',' value).map (fun x => pyUpper (pyStripStr x))).any
            (fun c => md.production_countries.contains c) then
          check_conditions md rest
        else some false := by
  simp only [check_conditions]
  rw [if_neg hv, if_neg (by decide : ¬("production_countries" : String) = "genre_ids"),
    if_neg (by decide : ¬("production_countries" : String) = "original_language"),
    if_neg (by decide : ¬("production_countries" : String) = "origin_country")]
  simp only [if_true]

theorem check_conditions_cons_unknown (md : TmdbData) (key value : String)
    (rest : List (String × String))
    (h1 : key ≠ "genre_ids") (h2 : key ≠ "original_language")
    (h3 : key ≠ "origin_country") (h4 : key ≠ "production_countries")
    (hv : value ≠ "") :
    check_conditions md ((key, value) :: rest) = check_conditions md rest := by
  simp only [check_conditions]
  rw [if_neg hv, if_neg h1, if_neg h2, if_neg h3, if_neg h4]

theorem specCondHolds_genre (md : TmdbData) (value : String) :
    specCondHolds md "genre_ids" value
      = ((pySplitChar ',' value).filterMap (fun x => parsePyInt (pyStripStr x))).any
          (fun g => md.genre_ids.contains g) := by
  simp only [specCondHolds, if_true]

theorem specCondHolds_lang (md : TmdbData) (value : String) :
    specCondHolds md "original_language" value
      = match md.original_language with
        | none => false
        | some l => ((pySplitChar ',' value).map (fun x => pyLower (pyStripStr x))).contains
            (pyLower l) := by
  simp only [specCondHolds]
  rw [if_neg (by decide : ¬("original_language" : String) = "genre_ids")]
  simp only [if_true]

theorem specCondHolds_origin (md : TmdbData) (value : String) :
    specCondHolds md "origin_country" value
      = ((pySplitChar ',' value).map (fun x => pyUpper (pyStripStr x))).any
          (fun c => md.origin_country.contains c) := by
  simp only [specCondHolds]
  rw [if_neg (by decide : ¬("origin_country" : String) = "genre_ids"),
    if_neg (by decide : ¬("origin_country" : String) = "original_language")]
  simp only [if_true]

theorem specCondHolds_production (md : TmdbData) (value : String) :
    specCondHolds md "production_countries" value
      = ((pySplitChar ',' value).map (fun x => pyUpper (pyStripStr x))).any
          (fun c => md.production_countries.contains c) := by
  simp only [specCondHolds]
  rw [if_neg (by decide : ¬("production_countries" : String) = "genre_ids"),
    if_neg (by decide : ¬("production_countries" : String) = "original_language"),
    if_neg (by decide : ¬("production_countries" : String) = "origin_country")]
  simp only [if_true]

theorem specCondHolds_unknown (md : TmdbData) (key value : String)
    (h1 : key ≠ "genre_ids") (h2 : key ≠ "original_language")
    (h3 : key ≠ "origin_country") (h4 : key ≠ "production_countries") :
    specCondHolds md key value = true := by
  simp only [specCondHolds]
  rw [if_neg h1, if_neg h2, if_neg h3, if_neg h4]

theorem specRuleMatches_cons (md : TmdbData) (kv : String × String)
    (rest : List (String × String)) :
    specRuleMatches md (kv :: rest)
      = ((decide (kv.2 = "") || specCondHolds md kv.1 kv.2)
          && specRuleMatches md rest) := by
  simp only [specRuleMatches, List.all_cons]

theorem check_conditions_spec (md : TmdbData) (conds : List (String × String))
    (hwf : condsWF md conds) :
    check_conditions md conds = some (specRuleMatches md conds) := by
  induction conds with
  | nil => rfl
  | cons kv rest ih =>
    obtain ⟨key, value⟩ := kv
    have hwfh := hwf (key, value) (List.mem_cons_self _ _)
    have hwfr : condsWF md rest := fun q hq => hwf q (List.mem_cons_of_mem _ hq)
    have ihr := ih hwfr
    by_cases hv : value = ""
    · subst hv
      rw [check_conditions_cons_empty, specRuleMatches_cons, ihr]
      simp
    · by_cases hk1 : key = "genre_ids"
      · subst hk1
        have hparse := parseIntList_eq_filterMap (pySplitChar ',' value)
          (hwfh.1 rfl hv)
        rw [check_conditions_cons_genre md value rest hv, hparse,
          specRuleMatches_cons]
        dsimp only
        rw [specCondHolds_genre]
        rcases Bool.eq_false_or_eq_true (((pySplitChar ',' value).filterMap
            (fun x => parsePyInt (pyStripStr x))).any
              (fun g => md.genre_ids.contains g)) with hany | hany
        · simp only [hany]
          simp [ihr, hv]
        · simp only [hany]
          simp [ihr, hv]
      · by_cases hk2 : key = "original_language"
        · subst hk2
          rw [check_conditions_cons_lang md value rest hv, specRuleMatches_cons]
          dsimp only
          rw [specCondHolds_lang]
          cases hlang : md.original_language with
          | none =>
            have hno := hwfh.2 rfl hlang
            rw [show pyLower (Option.getD (none : Option String) "") = ""
              from rfl]
            have hcf : ((pySplitChar ',' value).map
                (fun x => pyLower (pyStripStr x))).contains "" = false := by
              cases hcc : ((pySplitChar ',' value).map
                  (fun x => pyLower (pyStripStr x))).contains "" with
              | false => rfl
              | true => exact absurd (List.elem_iff.mp hcc) hno
            rw [hcf]
            simp [hv]
          | some l =>
            simp only [Option.getD_some]
            rcases Bool.eq_false_or_eq_true (((pySplitChar ',' value).map
                (fun x => pyLower (pyStripStr x))).contains (pyLower l)) with hc | hc
            · simp only [hc]
              simp [ihr, hv]
            · simp only [hc]
              simp [ihr, hv]
        · by_cases hk3 : key = "origin_country"
          · subst hk3
            rw [check_conditions_cons_origin md value rest hv, specRuleMatches_cons]
            dsimp only
            rw [specCondHolds_origin]
            rcases Bool.eq_false_or_eq_true (((pySplitChar ',' value).map
                (fun x => pyUpper (pyStripStr x))).any
                  (fun c => md.origin_country.contains c)) with hany | hany
            · simp only [hany]
              simp [ihr, hv]
            · simp only [hany]
              simp [ihr, hv]
          · by_cases hk4 : key = "production_countries"
            · subst hk4
              rw [check_conditions_cons_production md value rest hv,
                specRuleMatches_cons]
              dsimp only
              rw [specCondHolds_production]
              rcases Bool.eq_false_or_eq_true (((pySplitChar ',' value).map
                  (fun x => pyUpper (pyStripStr x))).any
                    (fun c => md.production_countries.contains c)) with hany | hany
              · simp only [hany]
                simp [ihr, hv]
              · simp only [hany]
                simp [ihr, hv]
            · rw [check_conditions_cons_unknown md key value rest hk1 hk2 hk3 hk4 hv,
                specRuleMatches_cons, ihr]
              dsimp only
              rw [specCondHolds_unknown md key value hk1 hk2 hk3 hk4]
              simp [hv]

theorem matchCategoryGo_spec (md : TmdbData) (media_type : String)
    (rules : CategoryRules) (hwf : ∀ rule ∈ rules, condsWF md rule.2) :
    matchCategoryGo md media_type rules
      = some (match rules.find? (fun rule => specRuleMatches md rule.2) with
              | some rule => rule.1
              | none => defaultCategory media_type) := by
  induction rules with
  | nil => rfl
  | cons rule rest ih =>
    have hr := check_conditions_spec md rule.2 (hwf rule (List.mem_cons_self _ _))
    have ihr := ih (fun q hq => hwf q (List.mem_cons_of_mem _ hq))
    rcases Bool.eq_false_or_eq_true (specRuleMatches md rule.2) with hm | hm
    · rw [hm] at hr
      have hfind : List.find? (fun rule => specRuleMatches md rule.2) (rule :: rest)
          = some rule :=
        List.find?_cons_of_pos _ (by simp [hm])
      obtain ⟨nm, conds⟩ := rule
      simp only [matchCategoryGo, hr, hfind]
    · rw [hm] at hr
      have hfind : List.find? (fun rule => specRuleMatches md rule.2) (rule :: rest)
          = List.find? (fun rule => specRuleMatches md rule.2) rest :=
        List.find?_cons_of_neg _ (by simp [hm])
      obtain ⟨nm, conds⟩ := rule
      simp only [matchCategoryGo, hr, hfind, ihr]

/-- C5: classification iterates the kind's rules in declared order and
returns the first rule all of whose non-empty conditions hold, a condition
holding exactly when the metadata field intersects the rule's value list
(integer intersection for genre ids, case-insensitive languages,
case-normalized countries, missing field fails), and always succeeds,
returning the kind's fallback category when no rule matches.  Stated for
taxonomies whose genre values parse as integers and whose language values
have no empty token (the shipped default taxonomy satisfies both). -/
theorem match_category_spec (config : CategoryConfig) (md : TmdbData)
    (hwf : ∀ rule ∈ (if md.media_type.getD "movie" = "tv" then config.tv
        else config.movie), condsWF md rule.2) :
    match_category config md = some (specClassify config md) := by
  unfold match_category specClassify
  exact matchCategoryGo_spec md _ _ hwf

/-- Closed instance of the classifier theorem, on the shipped default
taxonomy: an animated (genre 16) Japanese-language movie classifies as
`日韩动画电影`, matching the spec-side first-match result. -/
theorem match_category_spec_witness :
    match_category default_category_config
        ⟨some "movie", [16], some "ja", [], []⟩
      = some (specClassify default_category_config
          ⟨some "movie", [16], some "ja", [], []⟩)
    ∧ match_category default_category_config
        ⟨some "movie", [16], some "ja", [], []⟩ = some "日韩动画电影"
    ∧ ∀ rule ∈ (if (some "movie").getD "movie" = "tv" then
          default_category_config.tv else default_category_config.movie),
        condsWF ⟨some "movie", [16], some "ja", [], []⟩ rule.2 :=
  ⟨match_category_spec _ _ (by decide), by decide, by decide⟩

theorem foldl_append_eq_flatMap {α β : Type} (f : α → List β) :
    ∀ (l : List α) (acc : List β),
      l.foldl (fun a e => a ++ f e) acc = acc ++ l.flatMap f := by
  intro l
  induction l with
  | nil =>
    intro acc
    simp
  | cons e rest ih =>
    intro acc
    rw [List.foldl_cons, ih (acc ++ f e), List.flatMap_cons, List.append_assoc]

/-- Closed form of the per-directory candidate emission, once the entry is
known to hold a video file and not to be the media root. -/
theorem scanEntryCandidates_eq (movie_path : String) (direct_subdirs : List String)
    (e : WalkEntry) (hroot : e.root ≠ movie_path)
    (hne : (e.files.filter isVideoFile).isEmpty = false) :
    scanEntryCandidates movie_path direct_subdirs e
      = (if direct_subdirs.contains (⟨basenameP e.root.data⟩ : String) then
          (e.files.filter isVideoFile).map (fun vf =>
            { name := ⟨(splitext vf.data).1⟩
              path := e.root
              download_path :=
                (if simThreshold < sequenceRatio
                    (pyLower ⟨(splitext ((e.files.filter isVideoFile).headD "").data).1⟩)
                    (pyLower (⟨basenameP e.root.data⟩ : String)) then
                  ((⟨dirnameP e.root.data⟩ : String), "folder_similar")
                else (e.root, "folder_different")).1
              ctype := "file_match"
              match_type :=
                (if simThreshold < sequenceRatio
                    (pyLower ⟨(splitext ((e.files.filter isVideoFile).headD "").data).1⟩)
                    (pyLower (⟨basenameP e.root.data⟩ : String)) then
                  ((⟨dirnameP e.root.data⟩ : String), "folder_similar")
                else (e.root, "folder_different")).2
              similarity_with_file := sequenceRatio
                (pyLower ⟨(splitext ((e.files.filter isVideoFile).headD "").data).1⟩)
                (pyLower (⟨basenameP e.root.data⟩ : String))
              sample_file := vf
              file_count := (e.files.filter isVideoFile).length
              parent_folder := some (⟨basenameP e.root.data⟩ : String) })
        else
          [{ name := (⟨basenameP e.root.data⟩ : String)
             path := e.root
             download_path :=
               (if simThreshold < sequenceRatio
                   (pyLower ⟨(splitext ((e.files.filter isVideoFile).headD "").data).1⟩)
                   (pyLower (⟨basenameP e.root.data⟩ : String)) then
                 ((⟨dirnameP e.root.data⟩ : String), "folder_similar")
               else (e.root, "folder_different")).1
             ctype := "folder_match"
             match_type :=
               (if simThreshold < sequenceRatio
                   (pyLower ⟨(splitext ((e.files.filter isVideoFile).headD "").data).1⟩)
                   (pyLower (⟨basenameP e.root.data⟩ : String)) then
                 ((⟨dirnameP e.root.data⟩ : String), "folder_similar")
               else (e.root, "folder_different")).2
             similarity_with_file := sequenceRatio
               (pyLower ⟨(splitext ((e.files.filter isVideoFile).headD "").data).1⟩)
               (pyLower (⟨basenameP e.root.data⟩ : String))
             sample_file := (e.files.filter isVideoFile).headD ""
             file_count := (e.files.filter isVideoFile).length
             parent_folder := none }]) := by
  unfold scanEntryCandidates
  simp only [hne, Bool.false_eq_true, if_false, if_neg hroot]

/-- C3 (amended): the scanner is the per-directory candidate function
summed over the walk; for every visited directory other than the media
root that holds at least one video file, every emitted candidate carries
the similarity between the first video file's base name and the folder
name, and resolves its download path to the folder's parent directory
when that similarity exceeds 0.6 and to the folder itself otherwise; when
the folder's NAME is among the direct-child names of the media root the
scanner emits one `file_match` candidate per video file (comparison name =
file base name), and otherwise a single `folder_match` candidate named
after the folder.  The direct-child test is by name only, so a deeper
folder sharing its name with a direct child is treated like a direct
child. -/
theorem scan_all_movie_files_characterized (movie_path : String)
    (walk : List WalkEntry) (direct_subdirs : List String) :
    scan_all_movie_files movie_path walk direct_subdirs
      = walk.flatMap (scanEntryCandidates movie_path direct_subdirs)
    ∧ ∀ e ∈ walk, e.root ≠ movie_path → (e.files.filter isVideoFile) ≠ [] →
      (∀ c ∈ scanEntryCandidates movie_path direct_subdirs e,
          c.similarity_with_file
            = sequenceRatio
                (pyLower ⟨(splitext ((e.files.filter isVideoFile).headD "").data).1⟩)
                (pyLower ⟨basenameP e.root.data⟩)
          ∧ c.download_path
            = (if simThreshold < c.similarity_with_file
               then (⟨dirnameP e.root.data⟩ : String) else e.root))
      ∧ (direct_subdirs.contains (⟨basenameP e.root.data⟩ : String) = true →
          (scanEntryCandidates movie_path direct_subdirs e).map
              (fun c => (c.ctype, c.name))
            = (e.files.filter isVideoFile).map
                (fun vf => ("file_match", (⟨(splitext vf.data).1⟩ : String))))
      ∧ (direct_subdirs.contains (⟨basenameP e.root.data⟩ : String) = false →
          (scanEntryCandidates movie_path direct_subdirs e).map
              (fun c => (c.ctype, c.name))
            = [("folder_match", (⟨basenameP e.root.data⟩ : String))]) := by
  constructor
  · exact foldl_append_eq_flatMap _ walk []
  · intro e hmem hroot hvid
    have hne : (e.files.filter isVideoFile).isEmpty = false := by
      cases hfv : e.files.filter isVideoFile with
      | nil => exact absurd hfv hvid
      | cons a l => simp [List.isEmpty]
    rw [scanEntryCandidates_eq movie_path direct_subdirs e hroot hne]
    refine ⟨?_, ?_, ?_⟩
    · intro c hc
      rcases Bool.eq_false_or_eq_true
          (direct_subdirs.contains (⟨basenameP e.root.data⟩ : String)) with hd | hd
      · rw [hd, if_pos rfl] at hc
        rw [List.mem_map] at hc
        obtain ⟨vf, hvf, rfl⟩ := hc
        refine ⟨rfl, ?_⟩
        by_cases hsim : simThreshold < sequenceRatio
            (pyLower ⟨(splitext ((e.files.filter isVideoFile).headD "").data).1⟩)
            (pyLower (⟨basenameP e.root.data⟩ : String))
        · simp only [if_pos hsim]
        · simp only [if_neg hsim]
      · rw [hd] at hc
        simp only [Bool.false_eq_true, if_false, List.mem_singleton] at hc
        subst hc
        refine ⟨rfl, ?_⟩
        by_cases hsim : simThreshold < sequenceRatio
            (pyLower ⟨(splitext ((e.files.filter isVideoFile).headD "").data).1⟩)
            (pyLower (⟨basenameP e.root.data⟩ : String))
        · simp only [if_pos hsim]
        · simp only [if_neg hsim]
    · intro hd
      rw [hd, if_pos rfl, List.map_map]
      rfl
    · intro hd
      rw [hd]
      simp only [Bool.false_eq_true, if_false]
      rfl

/-- C3 counterexample to the unamended claim: with direct-child names
`["A"]`, the directory `/m/A/x/A` — three levels below the media root,
hence NOT a direct child (its parent is `/m/A/x`, not `/m`) — still emits
a `file_match` candidate rather than a single `folder_match`, because the
scanner compares only the folder's NAME against the direct-child names. -/
theorem scan_deep_folder_counterexample :
    (scan_all_movie_files "/m"
        [⟨"/m", []⟩, ⟨"/m/A", []⟩, ⟨"/m/A/x", []⟩, ⟨"/m/A/x/A", ["v.mkv"]⟩]
        ["A"]).map (fun c => c.ctype) = ["file_match"]
    ∧ (⟨dirnameP "/m/A/x/A".data⟩ : String) ≠ "/m" := by
  constructor
  · rfl
  · decide

def c3wEntry : WalkEntry := ⟨"/m/A", ["v.mkv"]⟩

/-- C3 witness: the characterization instantiated on a concrete walk of
one directory, a direct child of the media root holding one video file. -/
theorem scan_all_movie_files_characterized_witness :
    (scanEntryCandidates "/m" ["A"] c3wEntry).map (fun c => (c.ctype, c.name))
      = (c3wEntry.files.filter isVideoFile).map
          (fun vf => ("file_match", (⟨(splitext vf.data).1⟩ : String))) :=
  ((scan_all_movie_files_characterized "/m" [c3wEntry] ["A"]).2 c3wEntry
    (List.mem_singleton.mpr rfl) (by decide) (by decide)).2.1 (by decide)

/-! The C2 reconciliation pairing rule. -/

/-- Modelled from the spec: the candidate a torrent should be paired with —
the first-seen candidate whose similarity to the torrent's lower-cased
title is strictly above the 0.6 threshold and is maximal over the whole
pool (so ties keep the first-seen best); `none` when no candidate exceeds
the threshold. -/
def specBest (tl : String) (cands : List MatchCandidate) : Option MatchCandidate :=
  cands.find? (fun c => decide (simThreshold < torrentSim tl c)
      && cands.all (fun d => decide (torrentSim tl d ≤ torrentSim tl c)))

theorem findFirst_append {α : Type} (p : α → Bool) :
    ∀ (l1 : List α) (c : α) (l2 : List α),
      (∀ d ∈ l1, p d = false) → p c = true →
      (l1 ++ c :: l2).find? p = some c := by
  intro l1
  induction l1 with
  | nil =>
    intro c l2 _ hc
    simp [List.find?_cons_of_pos _ hc]
  | cons a l ih =>
    intro c l2 hf hc
    have ha : p a = false := hf a (List.mem_cons_self a l)
    rw [List.cons_append, List.find?_cons_of_neg _ (by simp [ha])]
    exact ih c l2 (fun d hd => hf d (List.mem_cons_of_mem a hd)) hc

theorem bestFold_append (tl : String) (l : List MatchCandidate) (a : MatchCandidate) :
    bestFold tl (l ++ [a])
      = (if (bestFold tl l).1 < torrentSim tl a ∧ simThreshold < torrentSim tl a
         then (torrentSim tl a, some a) else bestFold tl l) := by
  unfold bestFold
  rw [List.foldl_append]
  simp only [List.foldl_cons, List.foldl_nil, Bool.and_eq_true, decide_eq_true_eq]

theorem bestFold_cases (tl : String) (cands : List MatchCandidate) :
    (bestFold tl cands = (0, none) ∧ ∀ d ∈ cands, torrentSim tl d ≤ simThreshold)
    ∨ (∃ l1 c l2, cands = l1 ++ c :: l2
        ∧ bestFold tl cands = (torrentSim tl c, some c)
        ∧ simThreshold < torrentSim tl c
        ∧ (∀ d ∈ l1, torrentSim tl d < torrentSim tl c)
        ∧ (∀ d ∈ cands, torrentSim tl d ≤ torrentSim tl c)) := by
  induction cands using List.reverseRecOn with
  | nil => exact Or.inl ⟨rfl, by simp⟩
  | append_singleton l a ih =>
    rw [bestFold_append]
    rcases ih with ⟨h0, hall⟩ | ⟨l1, c, l2, hsplit, hbf, hthr, hlt, hle⟩
    · rw [h0]
      by_cases hs : simThreshold < torrentSim tl a
      · have h0s : (0 : ℚ) < torrentSim tl a := lt_trans (by decide) hs
        rw [if_pos ⟨h0s, hs⟩]
        refine Or.inr ⟨l, a, [], rfl, rfl, hs, ?_, ?_⟩
        · intro d hd
          exact lt_of_le_of_lt (hall d hd) hs
        · intro d hd
          rcases List.mem_append.mp hd with hd | hd
          · exact le_of_lt (lt_of_le_of_lt (hall d hd) hs)
          · rw [List.mem_singleton.mp hd]
      · rw [if_neg (fun h => hs h.2)]
        refine Or.inl ⟨rfl, ?_⟩
        intro d hd
        rcases List.mem_append.mp hd with hd | hd
        · exact hall d hd
        · rw [List.mem_singleton.mp hd]
          exact le_of_not_lt hs
    · rw [hbf]
      by_cases hgt : torrentSim tl c < torrentSim tl a
      · rw [if_pos ⟨hgt, lt_trans hthr hgt⟩]
        refine Or.inr ⟨l, a, [], rfl, rfl, lt_trans hthr hgt, ?_, ?_⟩
        · intro d hd
          exact lt_of_le_of_lt (hle d hd) hgt
        · intro d hd
          rcases List.mem_append.mp hd with hd | hd
          · exact le_of_lt (lt_of_le_of_lt (hle d hd) hgt)
          · rw [List.mem_singleton.mp hd]
      · rw [if_neg (fun h => hgt h.1)]
        refine Or.inr ⟨l1, c, l2 ++ [a], by rw [hsplit]; simp, rfl, hthr, hlt, ?_⟩
        intro d hd
        rcases List.mem_append.mp hd with hd | hd
        · exact hle d hd
        · rw [List.mem_singleton.mp hd]
          exact le_of_not_lt hgt

theorem bestFold_eq_specBest (tl : String) (cands : List MatchCandidate) :
    bestFold tl cands = (match specBest tl cands with
      | some c => (torrentSim tl c, some c)
      | none => ((0 : ℚ), none)) := by
  rcases bestFold_cases tl cands with ⟨h0, hall⟩ | ⟨l1, c, l2, hsplit, hbf, hthr, hlt, hle⟩
  · have hn : specBest tl cands = none := by
      unfold specBest
      apply List.find?_eq_none.mpr
      intro x hx
      simp only [Bool.and_eq_true, decide_eq_true_eq, not_and]
      intro hgt
      exact absurd hgt (not_lt.mpr (hall x hx))
    rw [hn]
    exact h0
  · have hs : specBest tl cands = some c := by
      unfold specBest
      rw [hsplit]
      apply findFirst_append
      · intro d hd
        rcases Bool.eq_false_or_eq_true (decide (simThreshold < torrentSim tl d)
            && (l1 ++ c :: l2).all fun e => decide (torrentSim tl e ≤ torrentSim tl d))
          with h | h
        · exfalso
          simp only [Bool.and_eq_true, List.all_eq_true, decide_eq_true_eq] at h
          have hcmem : c ∈ l1 ++ c :: l2 :=
            List.mem_append.mpr (Or.inr (List.mem_cons_self c l2))
          exact absurd (h.2 c hcmem) (not_le.mpr (hlt d hd))
        · exact h
      · simp only [Bool.and_eq_true, List.all_eq_true, decide_eq_true_eq]
        exact ⟨hthr, fun d hd => hle d (hsplit ▸ hd)⟩
    rw [hs]
    exact hbf

theorem specBest_none_iff (tl : String) (cands : List MatchCandidate) :
    specBest tl cands = none ↔ ∀ c ∈ cands, torrentSim tl c ≤ simThreshold := by
  constructor
  · intro hn c hc
    rcases bestFold_cases tl cands with ⟨_, hall⟩ | ⟨l1, c', l2, _, hbf, _, _, _⟩
    · exact hall c hc
    · exfalso
      have heq := bestFold_eq_specBest tl cands
      rw [hn, hbf] at heq
      exact Option.noConfusion (congrArg Prod.snd heq)
  · intro hall
    unfold specBest
    apply List.find?_eq_none.mpr
    intro x hx
    simp only [Bool.and_eq_true, decide_eq_true_eq, not_and]
    intro hgt
    exact absurd hgt (not_lt.mpr (hall x hx))

/-- The (torrent, matched name, similarity) content of a matched entry —
what the pairing claim is about, independent of the suppression flag. -/
def matchProj (m : MatchedEntry) : TorrentFile × String × ℚ :=
  (m.torrent, m.matched_filename, m.similarity)

theorem matchTorrentsCore_aux (cands : List MatchCandidate) :
    ∀ (ts : List TorrentFile) (a1 : List MatchedEntry) (a2 : List TorrentFile),
      ts.foldl (fun acc t =>
        let torrent_title := pyLower t.title
        let best := bestFold torrent_title cands
        match best.2 with
        | some c => (acc.1 ++ [⟨t, mkMatchedFileInfo c, c.name, best.1, none⟩], acc.2)
        | none => (acc.1, acc.2 ++ [t])) (a1, a2)
      = (a1 ++ ts.filterMap (fun t => (specBest (pyLower t.title) cands).map
            (fun c => ⟨t, mkMatchedFileInfo c, c.name, torrentSim (pyLower t.title) c, none⟩)),
         a2 ++ ts.filter (fun t => (specBest (pyLower t.title) cands).isNone)) := by
  intro ts
  induction ts with
  | nil =>
    intro a1 a2
    simp
  | cons t ts ih =>
    intro a1 a2
    rw [List.foldl_cons]
    have hbf := bestFold_eq_specBest (pyLower t.title) cands
    rcases hsb : specBest (pyLower t.title) cands with _ | c
    · rw [hsb] at hbf
      simp only [hbf]
      rw [ih]
      simp [List.filterMap_cons, List.filter_cons, hsb]
    · rw [hsb] at hbf
      simp only [hbf]
      rw [ih]
      simp [List.filterMap_cons, List.filter_cons, hsb]

theorem matchTorrentsCore_eq (torrents : List TorrentFile) (cands : List MatchCandidate) :
    matchTorrentsCore torrents cands
      = (torrents.filterMap (fun t => (specBest (pyLower t.title) cands).map
            (fun c => ⟨t, mkMatchedFileInfo c, c.name, torrentSim (pyLower t.title) c, none⟩)),
         torrents.filter (fun t => (specBest (pyLower t.title) cands).isNone)) := by
  unfold matchTorrentsCore
  simpa using matchTorrentsCore_aux cands torrents [] []

theorem applyRemoved_proj_aux (now : Int) :
    ∀ (matched : List MatchedEntry) (store : RemovedStore) (acc : List MatchedEntry),
      ((matched.foldl (applyStep now) (store, acc)).2).map matchProj
        = acc.map matchProj ++ matched.map matchProj := by
  intro matched
  induction matched with
  | nil =>
    intro store acc
    simp
  | cons m ms ih =>
    intro store acc
    rw [List.foldl_cons]
    rcases Bool.eq_false_or_eq_true (is_torrent_removed store m.torrent (mfiOfMatch m))
      with hr | hr
    · simp only [applyStep, hr, if_true]
      rw [ih]
      simp [matchProj]
    · simp only [applyStep, hr, Bool.false_eq_true, if_false]
      rw [ih]
      simp [matchProj]

theorem applyRemoved_proj (store : RemovedStore) (matched : List MatchedEntry) (now : Int) :
    ((apply_removed_torrent_records store matched now).2).map matchProj
      = matched.map matchProj := by
  unfold apply_removed_torrent_records
  simpa using applyRemoved_proj_aux now matched store []

/-- C2: reconciliation pairs each torrent with `specBest` — the first-seen
candidate whose similarity (between the candidate's lower-cased comparison
name and the torrent's lower-cased extracted title) is maximal over the
pool and strictly above 0.6 — recording that candidate's name and
similarity; the unmatched bucket is exactly the torrents for which
`specBest` is absent, which happens precisely when no candidate's
similarity exceeds the threshold. -/
theorem reconcile_pairs_best (store : RemovedStore) (movie_path : String)
    (walk : List WalkEntry) (direct_subdirs : List String)
    (torrents : List TorrentFile) (now : Int) :
    ((match_torrents_with_files store movie_path walk direct_subdirs torrents now).1.1).map
        matchProj
      = torrents.filterMap (fun t =>
          (specBest (pyLower t.title) (scan_all_movie_files movie_path walk direct_subdirs)).map
            (fun c => (t, c.name, torrentSim (pyLower t.title) c)))
    ∧ (match_torrents_with_files store movie_path walk direct_subdirs torrents now).1.2
      = torrents.filter (fun t =>
          (specBest (pyLower t.title)
            (scan_all_movie_files movie_path walk direct_subdirs)).isNone)
    ∧ ∀ t : TorrentFile,
        (specBest (pyLower t.title) (scan_all_movie_files movie_path walk direct_subdirs)
            = none
          ↔ ∀ c ∈ scan_all_movie_files movie_path walk direct_subdirs,
              torrentSim (pyLower t.title) c ≤ simThreshold) := by
  refine ⟨?_, ?_, ?_⟩
  · simp only [match_torrents_with_files, reconcile]
    rw [matchTorrentsCore_eq]
    rw [applyRemoved_proj]
    rw [List.map_filterMap]
    congr 1
    funext t
    rcases hsb : specBest (pyLower t.title) (scan_all_movie_files movie_path walk direct_subdirs)
      with _ | c
    · rfl
    · simp [matchProj]
  · simp only [match_torrents_with_files, reconcile]
    rw [matchTorrentsCore_eq]
  · intro t
    exact specBest_none_iff _ _

/-- C2 witness: on a one-directory walk holding one video file whose base
name equals the torrent's extracted title, the unmatched bucket is empty. -/
theorem reconcile_pairs_best_witness :
    (match_torrents_with_files [] "/m" [⟨"/m/A", ["Movie.mkv"]⟩] ["A"]
        [⟨"Movie.torrent", "/dl", 1, "Movie"⟩] 0).1.2 = [] := by
  rw [(reconcile_pairs_best [] "/m" [⟨"/m/A", ["Movie.mkv"]⟩] ["A"]
        [⟨"Movie.torrent", "/dl", 1, "Movie"⟩] 0).2.1]
  rfl

/-! Zero-similarity analysis of the difflib scorer (claim C8). -/

/-- The two character lists share no character. -/
def noCommonChar (a b : List Char) : Prop := ∀ c ∈ a, c ∉ b

theorem getC_mem (l : List Char) (i : Nat) (h : i < l.length) : getC l i ∈ l := by
  unfold getC
  rw [List.getD_eq_getElem l _ h]
  exact List.getElem_mem h

theorem mem_iff_getC (l : List Char) (c : Char) :
    c ∈ l ↔ ∃ i, i < l.length ∧ getC l i = c := by
  constructor
  · intro h
    obtain ⟨i, hi, he⟩ := List.mem_iff_getElem.mp h
    refine ⟨i, hi, ?_⟩
    unfold getC
    rw [List.getD_eq_getElem l _ hi]
    exact he
  · rintro ⟨i, hi, he⟩
    rw [← he]
    exact getC_mem l i hi

theorem posList_eq_nil (b : List Char) (c : Char) :
    posList b c = [] ↔ c ∉ b := by
  unfold posList
  rw [List.filter_eq_nil_iff]
  constructor
  · intro h hc
    obtain ⟨i, hi, he⟩ := (mem_iff_getC b c).mp hc
    have hni := h i (List.mem_range.mpr hi)
    simp only [decide_eq_true_eq] at hni
    exact hni he
  · intro h j hj
    simp only [decide_eq_true_eq]
    intro he
    exact h (by rw [← he]; exact getC_mem b j (List.mem_range.mp hj))

theorem b2j_of_not_mem (b : List Char) (c : Char) (h : c ∉ b) : b2j b c = [] := by
  simp only [b2j]
  rw [(posList_eq_nil b c).mpr h]
  simp

theorem b2j_short (b : List Char) (c : Char) (h : b.length < 200) : b2j b c = posList b c := by
  simp only [b2j]
  rw [if_neg]
  simp only [Bool.and_eq_true, decide_eq_true_eq]
  rintro ⟨h1, -⟩
  omega

theorem flmInner_size (prev : Nat → Nat) (i : Nat) (st : (Nat → Nat) × FLMBlock) (j : Nat) :
    st.2.size ≤ (flmInner prev i st j).2.size ∧ 1 ≤ (flmInner prev i st j).2.size := by
  simp only [flmInner]
  by_cases h : st.2.size < (if j = 0 then 0 else prev (j - 1)) + 1
  · simp only [if_pos h]
    exact ⟨le_of_lt h, Nat.succ_le_succ (Nat.zero_le _)⟩
  · simp only [if_neg h]
    have hk := Nat.le_of_not_lt h
    exact ⟨le_refl _, by omega⟩

theorem flmFold_size_le (prev : Nat → Nat) (i : Nat) :
    ∀ (js : List Nat) (st : (Nat → Nat) × FLMBlock),
      st.2.size ≤ (js.foldl (flmInner prev i) st).2.size := by
  intro js
  induction js with
  | nil => intro st; exact le_refl _
  | cons j js ih =>
    intro st
    rw [List.foldl_cons]
    exact le_trans (flmInner_size prev i st j).1 (ih _)

theorem flmFold_size_pos (prev : Nat → Nat) (i : Nat) (js : List Nat)
    (st : (Nat → Nat) × FLMBlock) (h : js ≠ []) :
    1 ≤ (js.foldl (flmInner prev i) st).2.size := by
  cases js with
  | nil => exact absurd rfl h
  | cons j js =>
    rw [List.foldl_cons]
    exact le_trans (flmInner_size prev i st j).2 (flmFold_size_le prev i js _)

theorem flmRow_size_le (a b : List Char) (blo bhi : Nat) (st : (Nat → Nat) × FLMBlock)
    (i : Nat) : st.2.size ≤ (flmRow a b blo bhi st i).2.size := by
  simp only [flmRow]
  exact flmFold_size_le st.1 i _ ((fun _ => 0), st.2)

theorem flmRow_size_pos (a b : List Char) (blo bhi : Nat) (st : (Nat → Nat) × FLMBlock)
    (i : Nat) (h : (b2j b (getC a i)).filter (fun j => blo ≤ j && j < bhi) ≠ []) :
    1 ≤ (flmRow a b blo bhi st i).2.size := by
  simp only [flmRow]
  exact flmFold_size_pos st.1 i _ _ h

theorem flmRowFold_size_le (a b : List Char) (blo bhi : Nat) :
    ∀ (l : List Nat) (st : (Nat → Nat) × FLMBlock),
      st.2.size ≤ (l.foldl (flmRow a b blo bhi) st).2.size := by
  intro l
  induction l with
  | nil => intro st; exact le_refl _
  | cons i l ih =>
    intro st
    rw [List.foldl_cons]
    exact le_trans (flmRow_size_le a b blo bhi st i) (ih _)

theorem flmScan_size_pos (a b : List Char) (alo ahi blo bhi : Nat) (i : Nat)
    (hmem : i ∈ List.range' alo (ahi - alo))
    (h : (b2j b (getC a i)).filter (fun j => blo ≤ j && j < bhi) ≠ []) :
    1 ≤ (flmScan a b alo ahi blo bhi).size := by
  obtain ⟨l1, l2, hsplit⟩ := List.append_of_mem hmem
  unfold flmScan
  rw [hsplit, List.foldl_append, List.foldl_cons]
  exact le_trans (flmRow_size_pos a b blo bhi _ i h) (flmRowFold_size_le a b blo bhi l2 _)

theorem flmScan_stay_aux (a b : List Char) (blo bhi : Nat) :
    ∀ (l : List Nat) (st : (Nat → Nat) × FLMBlock),
      (∀ i ∈ l, (b2j b (getC a i)).filter (fun j => blo ≤ j && j < bhi) = []) →
      (l.foldl (flmRow a b blo bhi) st).2 = st.2 := by
  intro l
  induction l with
  | nil => intro st _; rfl
  | cons i l ih =>
    intro st hall
    rw [List.foldl_cons]
    rw [ih _ (fun j hj => hall j (List.mem_cons_of_mem i hj))]
    simp only [flmRow, hall i (List.mem_cons_self i l), List.foldl_nil]

theorem flmScan_stay (a b : List Char) (alo ahi blo bhi : Nat)
    (hall : ∀ i ∈ List.range' alo (ahi - alo),
      (b2j b (getC a i)).filter (fun j => blo ≤ j && j < bhi) = []) :
    flmScan a b alo ahi blo bhi = ⟨alo, blo, 0⟩ := by
  unfold flmScan
  rw [flmScan_stay_aux a b blo bhi _ _ hall]

theorem extendLowF_size_le :
    ∀ (fuel : Nat) (a b : List Char) (alo blo : Nat) (st : FLMBlock),
      st.size ≤ (extendLowF fuel a b alo blo st).size := by
  intro fuel
  induction fuel with
  | zero => intro a b alo blo st; exact le_refl _
  | succ n ih =>
    intro a b alo blo st
    simp only [extendLowF]
    by_cases h : (decide (alo < st.i) && decide (blo < st.j)
        && decide (getC a (st.i - 1) = getC b (st.j - 1))) = true
    · rw [if_pos h]
      exact le_trans (Nat.le_succ st.size) (ih a b alo blo ⟨st.i - 1, st.j - 1, st.size + 1⟩)
    · rw [if_neg h]

theorem extendHighF_size_le :
    ∀ (fuel : Nat) (a b : List Char) (ahi bhi : Nat) (st : FLMBlock),
      st.size ≤ (extendHighF fuel a b ahi bhi st).size := by
  intro fuel
  induction fuel with
  | zero => intro a b ahi bhi st; exact le_refl _
  | succ n ih =>
    intro a b ahi bhi st
    simp only [extendHighF]
    by_cases h : (decide (st.i + st.size < ahi) && decide (st.j + st.size < bhi)
        && decide (getC a (st.i + st.size) = getC b (st.j + st.size))) = true
    · rw [if_pos h]
      exact le_trans (Nat.le_succ st.size) (ih a b ahi bhi ⟨st.i, st.j, st.size + 1⟩)
    · rw [if_neg h]

theorem extendHighF_stay (fuel : Nat) (a b : List Char) (ahi bhi : Nat) (st : FLMBlock)
    (h : ¬(st.i + st.size < ahi ∧ st.j + st.size < bhi
        ∧ getC a (st.i + st.size) = getC b (st.j + st.size))) :
    extendHighF fuel a b ahi bhi st = st := by
  cases fuel with
  | zero => rfl
  | succ n =>
    simp only [extendHighF]
    rw [if_neg]
    simpa [Bool.and_eq_true, decide_eq_true_eq, and_assoc] using h

theorem flm_full_of_noCommon (a b : List Char) (h : noCommonChar a b) :
    find_longest_match a b 0 a.length 0 b.length = ⟨0, 0, 0⟩ := by
  unfold find_longest_match
  rw [flmScan_stay a b 0 a.length 0 b.length ?hall]
  case hall =>
    intro i hi
    have hia : i < a.length := by
      have := List.mem_range'_1.mp hi
      omega
    rw [b2j_of_not_mem b (getC a i) (h (getC a i) (getC_mem a i hia))]
    rfl
  have hlow : extendLow a b 0 0 ⟨0, 0, 0⟩ = ⟨0, 0, 0⟩ := rfl
  rw [hlow]
  unfold extendHigh
  apply extendHighF_stay
  rintro ⟨h1, h2, h3⟩
  have h1a : 0 < a.length := h1
  have h2b : 0 < b.length := h2
  have h3e : getC a 0 = getC b 0 := h3
  exact h (getC a 0) (getC_mem a 0 h1a) (by rw [h3e]; exact getC_mem b 0 h2b)

theorem flm_full_size_pos (a b : List Char) (hb : b.length < 200)
    (hc : ∃ c ∈ a, c ∈ b) :
    1 ≤ (find_longest_match a b 0 a.length 0 b.length).size := by
  obtain ⟨c, hca, hcb⟩ := hc
  obtain ⟨i, hia, hieq⟩ := (mem_iff_getC a c).mp hca
  have hscan : 1 ≤ (flmScan a b 0 a.length 0 b.length).size := by
    apply flmScan_size_pos a b 0 a.length 0 b.length i
    · rw [List.mem_range'_1]
      omega
    · rw [b2j_short b (getC a i) hb, hieq]
      intro hnil
      obtain ⟨j, hjb, hjeq⟩ := (mem_iff_getC b c).mp hcb
      have hjmem : j ∈ posList b c := by
        unfold posList
        rw [List.mem_filter]
        exact ⟨List.mem_range.mpr hjb, by simp [hjeq]⟩
      have hjf : j ∈ (posList b c).filter (fun j => 0 ≤ j && j < b.length) := by
        rw [List.mem_filter]
        exact ⟨hjmem, by simp [hjb]⟩
      rw [hnil] at hjf
      exact absurd hjf (List.not_mem_nil j)
  unfold find_longest_match
  calc 1 ≤ (flmScan a b 0 a.length 0 b.length).size := hscan
    _ ≤ (extendLow a b 0 0 (flmScan a b 0 a.length 0 b.length)).size := by
        unfold extendLow
        exact extendLowF_size_le _ a b 0 0 _
    _ ≤ _ := by
        unfold extendHigh
        exact extendHighF_size_le _ a b a.length b.length _

theorem matchSum_eq_zero_iff (a b : List Char) :
    matchSum a b = 0 ↔ (find_longest_match a b 0 a.length 0 b.length).size = 0 := by
  unfold matchSum
  simp only [matchSumF]
  by_cases h : (find_longest_match a b 0 a.length 0 b.length).size = 0
  · rw [if_pos h]
    simp [h]
  · rw [if_neg h]
    constructor
    · intro h2
      omega
    · intro h2
      exact absurd h2 h

theorem ratioQ_eq_zero_iff (a b : List Char) :
    ratioQ a b = 0 ↔ (a.length + b.length ≠ 0 ∧ matchSum a b = 0) := by
  unfold ratioQ
  by_cases h : a.length + b.length = 0
  · rw [if_pos h]
    simp [h]
  · rw [if_neg h, mkQ_eq, div_eq_zero_iff]
    simp only [Nat.cast_eq_zero]
    constructor
    · rintro (h2 | h2)
      · exact ⟨h, by omega⟩
      · exact absurd h2 h
    · rintro ⟨-, h2⟩
      exact Or.inl (by omega)

theorem matchSum_zero_iff_noCommon (a b : List Char) (hb : b.length < 200) :
    matchSum a b = 0 ↔ noCommonChar a b := by
  rw [matchSum_eq_zero_iff]
  constructor
  · intro h c hca hcb
    have hpos := flm_full_size_pos a b hb ⟨c, hca, hcb⟩
    omega
  · intro h
    rw [flm_full_of_noCommon a b h]

theorem noCommonChar_symm (a b : List Char) (h : noCommonChar a b) : noCommonChar b a :=
  fun c hcb hca => h c hca hcb

/-- C8 counterexample: the difflib ratio used by the scanner and matcher is
not symmetric — swapping `"tide"` and `"diet"` changes the score (1/4
versus 1/2), because the longest-match scan indexes only the second
argument. -/
theorem sequenceRatio_asymmetric_counterexample :
    sequenceRatio "tide" "diet" ≠ sequenceRatio "diet" "tide" := by decide

/-- C8 (amended): the similarity is not symmetric in general, but zero
scores are symmetric for inputs below the 200-character autojunk cutoff:
`similarity(a, b) = 0` iff `similarity(b, a) = 0`, both holding exactly
when the non-empty pair shares no character. -/
theorem sequenceRatio_zero_symm (x y : String)
    (hx : x.data.length < 200) (hy : y.data.length < 200) :
    (sequenceRatio x y = 0 ↔ sequenceRatio y x = 0) := by
  unfold sequenceRatio
  rw [ratioQ_eq_zero_iff, ratioQ_eq_zero_iff,
    matchSum_zero_iff_noCommon x.data y.data hy, matchSum_zero_iff_noCommon y.data x.data hx]
  constructor
  · rintro ⟨hne, hnc⟩
    exact ⟨by omega, noCommonChar_symm _ _ hnc⟩
  · rintro ⟨hne, hnc⟩
    exact ⟨by omega, noCommonChar_symm _ _ hnc⟩

/-- C8 witness: the zero-symmetry theorem applied at the concrete
asymmetric pair. -/
theorem sequenceRatio_zero_symm_witness :
    ("tide".data.length < 200 ∧ "diet".data.length < 200)
    ∧ (sequenceRatio "tide" "diet" = 0 ↔ sequenceRatio "diet" "tide" = 0) :=
  ⟨⟨by decide, by decide⟩, sequenceRatio_zero_symm "tide" "diet" (by decide) (by decide)⟩
